import Mathlib

/-!
# Campus messaging system: relay server and client codec

A shallow embedding of `src/common.hpp`, `src/server.cpp` and `src/client.cpp`.

* A `std::string` is a `List Char`; a character stands for one byte, and the
  byte-level functions (`base64_encode`, `base64_decode`) read it through
  `Char.toNat` the way the source reads it through `unsigned char`.
* A `std::map<string, V>` is an association list read with `map_find` and
  written with `map_assign` / `map_erase`; the source never depends on the
  iteration order of a map for anything but console output.
* The server's globals are the fields of `Server`; every `send(fd, msg)` the
  server performs is appended to `Server.sent`.
* One handler of the poll loop is one `Event`; `step` runs the handler.  An
  out-of-range `clients[i]` (undefined behaviour in the source) makes `step`
  return `none`.
* Wall-clock readings (`time(nullptr)`, `now_str()`) are inputs of the events.
* One whole iteration of the poll loop, with the `pfds` vector and the two
  counters of the client-socket pass, is `poll_iteration`.
-/

namespace Campus

/-! ## Strings and maps -/

/-- A `std::string`. -/
abbrev Str := List Char

/-- The loop of `split_tokens` (server.cpp 75-79): `tmp` is the field being
read, `out` the fields already pushed. -/
def split_go (sep : Char) : List Char → Str → List Str → List Str
  | [], tmp, out => out ++ [tmp]
  | c :: cs, tmp, out =>
    if c = sep then split_go sep cs [] (out ++ [tmp])
    else split_go sep cs (tmp ++ [c]) out

/-- Function `split_tokens` of server.cpp 72-81. -/
def split_tokens (s : Str) (sep : Char := '|') : List Str :=
  split_go sep s [] []

/-- Function `to_lower` of server.cpp 83-88 and client.cpp 26-31: `tolower` on
every byte (C locale: only `A`..`Z` change). -/
def to_lower (s : Str) : Str := s.map Char.toLower

/-- The inverse of the codec in the words of the specification: the fields
written one after the other with the separator between them, which is how
both programs build their records (`a + "|" + b + ...`). -/
def join_fields : List Str → Str
  | [] => []
  | [f] => f
  | f :: g :: rest => f ++ '|' :: join_fields (g :: rest)

/-- The call `std::to_string(n)` for a socket descriptor. -/
def to_string (n : Nat) : Str := (toString n).toList

/-- Lookup `m.find(k)` in a `std::map`. -/
def map_find {α : Type} : List (Str × α) → Str → Option α
  | [], _ => none
  | p :: m, k => if p.1 = k then some p.2 else map_find m k

/-- The test `m.count(k)` of a `std::map`. -/
def map_count {α : Type} (m : List (Str × α)) (k : Str) : Bool :=
  (map_find m k).isSome

/-- The assignment `m[k] = v` of a `std::map`: overwrite the entry of `k`, or
insert one. -/
def map_assign {α : Type} : List (Str × α) → Str → α → List (Str × α)
  | [], k, v => [(k, v)]
  | p :: m, k, v => if p.1 = k then (p.1, v) :: m else p :: map_assign m k v

/-- The call `m.erase(k)` of a `std::map`. -/
def map_erase {α : Type} (m : List (Str × α)) (k : Str) : List (Str × α) :=
  m.filter (fun p => p.1 ≠ k)

/-! ## common.hpp -/

/-- Constant `HEARTBEAT_INTERVAL` of common.hpp 13. -/
def HEARTBEAT_INTERVAL : Int := 10

/-- Constant `MAX_MISSED_HEARTBEATS` of common.hpp 14. -/
def MAX_MISSED_HEARTBEATS : Int := 3

/-! ## server.cpp: data -/

/-- The table `credentials` of server.cpp 25-32. -/
def credentials : List (Str × Str) :=
  [ ("Lahore".toList, "NU-LHR-123".toList),
    ("Karachi".toList, "NU-KHI-123".toList),
    ("Peshawar".toList, "NU-PES-123".toList),
    ("CFD".toList, "NU-CFD-123".toList),
    ("Multan".toList, "NU-MUL-123".toList),
    ("Islamabad".toList, "NU-ISB-123".toList) ]

/-- Struct `ClientInfo` of server.cpp 38-46.  A fresh entry has empty strings
and `has_udp_addr = false`; `udpAddr` abstracts the `sockaddr_in`. -/
structure ClientInfo where
  sockfd : Nat
  campusLower : Str := []
  campusDisplay : Str := []
  deptLower : Str := []
  deptDisplay : Str := []
  udpAddr : Nat := 0
  has_udp_addr : Bool := false
  deriving DecidableEq, Repr

/-- Struct `CampusStatus` of server.cpp 48-52. -/
structure CampusStatus where
  lastHeartbeat : Int := 0
  missedCount : Int := 0
  online : Bool := false
  deriving DecidableEq, Repr

/-- Struct `HeartbeatInfo` of server.cpp 61-64. -/
structure HeartbeatInfo where
  dept : Str
  ts : Int
  deriving DecidableEq, Repr

/-- The map `campus_display_name` as built by server.cpp 198-201. -/
def campus_display_name : List (Str × Str) :=
  credentials.foldl (fun m p => map_assign m (to_lower p.1) p.1) []

/-- The globals of server.cpp 55-66, and the trace `sent` of every
`send(fd, msg)` on a stream socket. -/
structure Server where
  clients : List ClientInfo := []
  routing_map : List (Str × Nat) := []
  campusStatus : List (Str × CampusStatus) := []
  routing_log : List Str := []
  heartbeats : List (Str × HeartbeatInfo) := []
  sent : List (Nat × Str) := []
  deriving DecidableEq, Repr

/-- The state when the poll loop is entered: `campusStatus` seeded by
server.cpp 198-202, everything else empty. -/
def initial : Server :=
  { campusStatus :=
      credentials.foldl (fun m p => map_assign m (to_lower p.1) ({} : CampusStatus)) [] }

/-- Function `make_log` of server.cpp 68-70; `stamp` is the value of
`now_str()`. -/
def make_log (stamp s : Str) : Str := "[".toList ++ stamp ++ "] ".toList ++ s

/-- The routing key `campusLower + "|" + deptLower`. -/
def routing_key (campusLower deptLower : Str) : Str :=
  campusLower ++ "|".toList ++ deptLower

/-! ## server.cpp: handlers of the poll loop -/

/-- The listening socket is readable and `accept` returned `clientfd >= 0`
(server.cpp 257-268). -/
def accept_client (s : Server) (clientfd : Nat) (stamp : Str) : Server :=
  { s with
    clients := s.clients ++ [{ sockfd := clientfd }]
    routing_log := s.routing_log ++
      [make_log stamp ("Client connected fd=".toList ++ to_string clientfd)] }

/-- The datagram socket is readable and `recvfrom` returned the datagram
`dgram` from address `src` (server.cpp 272-299); `now` is `time(nullptr)`. -/
def on_datagram (s : Server) (dgram : Str) (src : Nat) (now : Int) : Server :=
  match split_tokens dgram with
  | tag :: campus :: rest =>
    if tag = "HB".toList then
      let campusLower := to_lower campus
      let dept : Str := match rest with
        | d :: _ => d
        | [] => []
      { s with
        heartbeats := map_assign s.heartbeats campusLower { dept := dept, ts := now }
        campusStatus :=
          if map_count s.campusStatus campusLower then
            map_assign s.campusStatus campusLower
              { lastHeartbeat := now, missedCount := 0, online := true }
          else s.campusStatus
        clients := s.clients.map (fun c =>
          if c.campusLower = campusLower then
            { c with udpAddr := src, has_udp_addr := true }
          else c) }
    else s
  | _ => s

/-- The read on `clients[ci_idx]` returned `r <= 0` (server.cpp 308-321). -/
def on_disconnect (s : Server) (ci_idx : Nat) (ci : ClientInfo) (stamp : Str) : Server :=
  { s with
    routing_log := s.routing_log ++
      [make_log stamp ("fd ".toList ++ to_string ci.sockfd ++ " disconnected".toList)]
    routing_map :=
      if ci.campusLower ≠ [] ∧ ci.deptLower ≠ [] then
        map_erase s.routing_map (routing_key ci.campusLower ci.deptLower)
      else s.routing_map
    clients := s.clients.eraseIdx ci_idx }

/-- The condition of server.cpp 335:
`campus_display_name.count(inputLower) &&
 credentials[campus_display_name[inputLower]] == pass`. -/
def auth_ok (inputLower pass : Str) : Bool :=
  match map_find campus_display_name inputLower with
  | none => false
  | some disp => decide ((map_find credentials disp).getD [] = pass)

/-- The AUTH branch, server.cpp 328-358. -/
def on_auth (s : Server) (ci_idx : Nat) (ci : ClientInfo)
    (inputCamp inputDept pass stamp : Str) : Server :=
  let inputLower := to_lower inputCamp
  let deptLower := to_lower inputDept
  if auth_ok inputLower pass then
    let ci1 : ClientInfo :=
      { ci with
        campusLower := inputLower
        campusDisplay := (map_find campus_display_name inputLower).getD []
        deptLower := deptLower
        deptDisplay := inputDept }
    { s with
      clients := s.clients.set ci_idx ci1
      routing_map := map_assign s.routing_map (routing_key ci1.campusLower ci1.deptLower) ci_idx
      sent := s.sent ++ [(ci.sockfd, "AUTH_OK".toList)]
      routing_log := s.routing_log ++
        [make_log stamp ("AUTH ".toList ++ ci1.campusDisplay ++ " / ".toList ++ ci1.deptDisplay)] }
  else
    { s with
      sent := s.sent ++ [(ci.sockfd, "AUTH_FAIL".toList)]
      routing_log := s.routing_log ++
        [make_log stamp ("AUTH_FAIL fd=".toList ++ to_string ci.sockfd)]
      clients := s.clients.eraseIdx ci_idx }

/-- The name shown for a target in the routing log (server.cpp 383, 426). -/
def target_display (targetLower targetRaw : Str) : Str :=
  if map_count campus_display_name targetLower then
    (map_find campus_display_name targetLower).getD []
  else targetRaw

/-- The record `ERR|Target offline or unknown: T-D` of server.cpp 388, 431. -/
def err_record (targetRaw targetDeptRaw : Str) : Str :=
  "ERR|Target offline or unknown: ".toList ++ targetRaw ++ "-".toList ++ targetDeptRaw

/-- The MSG branch, server.cpp 360-391.  The result is `none` when
`clients[tidx]` is out of range. -/
def on_msg (s : Server) (ci : ClientInfo)
    (targetRaw targetDeptRaw body stamp : Str) : Option Server :=
  let targetLower := to_lower targetRaw
  let targetDeptLower := to_lower targetDeptRaw
  let fromDisplay : Str := if ci.campusLower ≠ [] then ci.campusDisplay else "(Unknown)".toList
  let fromDeptDisplay : Str := if ci.campusLower ≠ [] then ci.deptDisplay else []
  let forward := "FROM|".toList ++ fromDisplay ++ "|".toList ++ fromDeptDisplay ++
    "|".toList ++ body
  let key := routing_key targetLower targetDeptLower
  match map_find s.routing_map key with
  | some tidx =>
    match s.clients.get? tidx with
    | some target =>
      let routedMsg := "Routed ".toList ++ fromDisplay ++ "-".toList ++ fromDeptDisplay ++
        " -> ".toList ++ target_display targetLower targetRaw ++ "-".toList ++
        targetDeptRaw ++ " : ".toList ++ body
      some { s with
        sent := s.sent ++ [(target.sockfd, forward)]
        routing_log := s.routing_log ++ [make_log stamp routedMsg] }
    | none => none
  | none =>
    some { s with sent := s.sent ++ [(ci.sockfd, err_record targetRaw targetDeptRaw)] }

/-- The loop of server.cpp 404-409 and client.cpp 115-120: the index just
after the fourth separator of the record, or the size of the record when it
has fewer than four.  `i` is the index of the head of the first argument,
`seen` the separators counted so far. -/
def after_fourth_sep : List Char → Nat → Nat → Nat
  | [], i, _ => i
  | c :: cs, i, seen =>
    if c = '|' then
      if seen + 1 = 4 then i + 1 else after_fourth_sep cs (i + 1) (seen + 1)
    else after_fourth_sep cs (i + 1) seen

/-- The payload of a FILE / FILEFROM record (server.cpp 398-411, client.cpp
114-121): everything after the fourth separator, or `toks[4]`. -/
def file_tail (msg : Str) (tok4 : Str) : Str :=
  let i := after_fourth_sep msg 0 0
  if i < msg.length then msg.drop i else tok4

/-- The FILE branch, server.cpp 393-434. -/
def on_file (s : Server) (ci : ClientInfo) (msg : Str)
    (targetRaw targetDeptRaw filename tok4 stamp : Str) : Option Server :=
  let b64 := file_tail msg tok4
  let targetLower := to_lower targetRaw
  let targetDeptLower := to_lower targetDeptRaw
  let fromDisplay := ci.campusDisplay
  let fromDeptDisplay := ci.deptDisplay
  let forward := "FILEFROM|".toList ++ fromDisplay ++ "|".toList ++ fromDeptDisplay ++
    "|".toList ++ filename ++ "|".toList ++ b64
  let key := routing_key targetLower targetDeptLower
  match map_find s.routing_map key with
  | some tidx =>
    match s.clients.get? tidx with
    | some target =>
      let routedMsg := "File routed ".toList ++ fromDisplay ++ "-".toList ++
        fromDeptDisplay ++ " -> ".toList ++ target_display targetLower targetRaw ++
        "-".toList ++ targetDeptRaw ++ " : ".toList ++ filename
      some { s with
        sent := s.sent ++ [(target.sockfd, forward)]
        routing_log := s.routing_log ++ [make_log stamp routedMsg] }
    | none => none
  | none =>
    some { s with sent := s.sent ++ [(ci.sockfd, err_record targetRaw targetDeptRaw)] }

/-- The dispatch of one record `msg` read from `clients[ci_idx]`
(server.cpp 322-437): AUTH and MSG need four fields, FILE five, anything
else is only printed. -/
def on_record (s : Server) (ci_idx : Nat) (ci : ClientInfo) (msg stamp : Str) :
    Option Server :=
  match split_tokens msg with
  | tag :: t1 :: t2 :: t3 :: rest =>
    if tag = "AUTH".toList then some (on_auth s ci_idx ci t1 t2 t3 stamp)
    else if tag = "MSG".toList then on_msg s ci t1 t2 t3 stamp
    else if tag = "FILE".toList then
      match rest with
      | t4 :: _ => on_file s ci msg t1 t2 t3 t4 stamp
      | [] => some s
    else some s
  | _ => some s

/-- One pass of the body of the client-socket loop for a readable
`clients[ci_idx]` (server.cpp 305-437): `data = none` is a read with
`r <= 0`, `data = some msg` a read of the record `msg`. -/
def on_client (s : Server) (ci_idx : Nat) (data : Option Str) (stamp : Str) :
    Option Server :=
  match s.clients.get? ci_idx with
  | none => none
  | some ci =>
    match data with
    | none => some (on_disconnect s ci_idx ci stamp)
    | some msg => on_record s ci_idx ci msg stamp

/-- The body of the liveness sweep for one record (server.cpp 445-456); `now`
is `time(nullptr)` and `difftime` is the integer difference. -/
def sweep_entry (now : Int) (cs : CampusStatus) : CampusStatus :=
  if cs.online then
    if now - cs.lastHeartbeat > HEARTBEAT_INTERVAL then
      let cs1 := { cs with missedCount := cs.missedCount + 1 }
      if cs1.missedCount ≥ MAX_MISSED_HEARTBEATS then { cs1 with online := false }
      else cs1
    else cs
  else cs

/-- The liveness sweep at the end of a poll-loop iteration
(server.cpp 441-457). -/
def sweep (s : Server) (now : Int) : Server :=
  { s with campusStatus := s.campusStatus.map (fun kv => (kv.1, sweep_entry now kv.2)) }

/-- What one handler of the poll loop reacts to. -/
inductive Event where
  | accept (clientfd : Nat) (stamp : Str)
  | datagram (dgram : Str) (src : Nat) (now : Int)
  | client (ci_idx : Nat) (data : Option Str) (stamp : Str)
  | sweep (now : Int)
  deriving DecidableEq, Repr

/-- Run the handler of one event. -/
def step (s : Server) : Event → Option Server
  | .accept fd stamp => some (accept_client s fd stamp)
  | .datagram d src now => some (on_datagram s d src now)
  | .client i data stamp => on_client s i data stamp
  | .sweep now => some (sweep s now)

/-- Run the handlers of a sequence of events, in order. -/
def run (s : Server) : List Event → Option Server
  | [] => some s
  | e :: es => (step s e).bind (fun s1 => run s1 es)

/-- The states the server can be in: the initial one, and every state a
handler produces from a reachable one. -/
inductive Reachable : Server → Prop where
  | init : Reachable initial
  | step {s s1 : Server} (e : Event) : Reachable s → step s e = some s1 → Reachable s1

/-- The liveness sweeps of consecutive poll-loop iterations at the times `ts`,
with no heartbeat handled in between. -/
def sweeps (s : Server) (ts : List Int) : Server := ts.foldl sweep s

/-- The number of sweep ticks among `ts` that see more than
`HEARTBEAT_INTERVAL` seconds since `last`. -/
def late_ticks (last : Int) (ts : List Int) : Nat :=
  (ts.filter (fun t => decide (t - last > HEARTBEAT_INTERVAL))).length

/-! ## server.cpp: one iteration of the poll loop -/

/-- A `pollfd` once `poll` has returned: the descriptor, and whether
`revents & POLLIN` is set. -/
structure Pollfd where
  fd : Nat
  pollin : Bool
  deriving DecidableEq, Repr

/-- What the environment gives one iteration of the poll loop
(server.cpp 239-459): the two server sockets, the verdict of `poll` for every
descriptor, the result of `accept` (`some clientfd` when `clientfd >= 0`), of
`recvfrom` (`some (datagram, source)` when `r > 0`), of `recv` on each client
socket (`none` when `r <= 0`, which on these non-blocking sockets includes a
socket with nothing to read), and the clock readings. -/
structure PollInput where
  listen_fd : Nat
  udp_fd : Nat
  ready : Nat → Bool
  accepted : Option Nat
  dgram : Option (Str × Nat)
  recv : Nat → Option Str
  hb_now : Int
  sweep_now : Int
  stamp : Str

/-- The vector `pfds` of server.cpp 240-249 with the `revents` that `poll`
filled in (251): the listening socket, the datagram socket, then one slot
per entry of `clients` as it is when the iteration starts. -/
def build_pfds (s : Server) (inp : PollInput) : List Pollfd :=
  [{ fd := inp.listen_fd, pollin := inp.ready inp.listen_fd },
   { fd := inp.udp_fd, pollin := inp.ready inp.udp_fd }] ++
  s.clients.map (fun ci => { fd := ci.sockfd, pollin := inp.ready ci.sockfd })

/-- The client-socket pass of server.cpp 304-438:
`for (ci_idx=0; ci_idx<clients.size(); ++ci_idx, ++idx)`, where the body
skips a slot without POLLIN, and after `clients.erase` (the disconnect branch
and the failed-AUTH branch, the two that shorten `clients`) does
`ci_idx--; idx--; continue`, so that both counters keep their value.  The
result is `none` when `pfds[idx]` or `clients[tidx]` is out of range.  The
first argument bounds the number of iterations; `clients.size()` is enough,
see `client_pass_fuel`. -/
def client_pass : Nat → List Pollfd → (Nat → Option Str) → Str → Server → Nat → Nat →
    Option Server
  | 0, _, _, _, s, _, _ => some s
  | fuel + 1, pfds, recv, stamp, s, ci_idx, idx =>
    match s.clients.get? ci_idx with
    | none => some s
    | some ci =>
      match pfds.get? idx with
      | none => none
      | some p =>
        if p.pollin = false then client_pass fuel pfds recv stamp s (ci_idx + 1) (idx + 1)
        else
          match on_client s ci_idx (recv ci.sockfd) stamp with
          | none => none
          | some s1 =>
            if s1.clients.length < s.clients.length then
              client_pass fuel pfds recv stamp s1 ci_idx idx
            else client_pass fuel pfds recv stamp s1 (ci_idx + 1) (idx + 1)

/-- One iteration of the poll loop in which `poll` did not fail
(server.cpp 240-457): build `pfds`, accept, read a datagram, pass over the
client sockets from `idx = 2`, sweep. -/
def poll_iteration (s : Server) (inp : PollInput) : Option Server :=
  let pfds := build_pfds s inp
  let s1 :=
    if inp.ready inp.listen_fd then
      match inp.accepted with
      | some clientfd => accept_client s clientfd inp.stamp
      | none => s
    else s
  let s2 :=
    if inp.ready inp.udp_fd then
      match inp.dgram with
      | some (d, src) => on_datagram s1 d src inp.hb_now
      | none => s1
    else s1
  match client_pass s2.clients.length pfds inp.recv inp.stamp s2 0 2 with
  | none => none
  | some s3 => some (sweep s3 inp.sweep_now)

/-! ## client.cpp: the base64 codec -/

/-- A C++ `int` as a 32-bit two's-complement value: the representative of `x`
modulo 2^32 in [-2^31, 2^31). -/
def wrap32 (x : Int) : Int := (x + 2147483648) % 4294967296 - 2147483648

/-- The string `b64_chars` of client.cpp 34-37. -/
def b64_chars : Str :=
  "ABCDEFGHIJKLMNOPQRSTUVWXYZabcdefghijklmnopqrstuvwxyz0123456789+/".toList

/-- The character `b64_chars[x & 0x3F]` for an `int` x: on two's complement
`x & 0x3F` is `x mod 64`. -/
def b64_char (x : Int) : Char := b64_chars.getD (x % 64).toNat 'A'

/-- The inner loop of `base64_encode` (client.cpp 45-48):
`while (valb>=0) { out.push_back(b64_chars[(val>>valb)&0x3F]); valb -= 6; }`,
with `>>` the arithmetic shift (floor division by a power of two).  The
first argument bounds the number of iterations; `valb.toNat + 1` is enough
since `valb` decreases. -/
def enc_while : Nat → Int → Int → Str → Str × Int
  | 0, _, valb, out => (out, valb)
  | n + 1, val, valb, out =>
    if valb ≥ 0 then
      enc_while n val (valb - 6) (out ++ [b64_char (val / 2 ^ valb.toNat)])
    else (out, valb)

/-- The outer loop of `base64_encode` (client.cpp 42-49) over the bytes of the
input, from the accumulator `val`, the bit count `valb` and the output `out`
so far. -/
def enc_loop : List Char → Int → Int → Str → Str × Int × Int
  | [], val, valb, out => (out, val, valb)
  | c :: cs, val, valb, out =>
    let val1 := wrap32 (wrap32 (val * 256) + (c.toNat : Int))
    let r := enc_while ((valb + 8).toNat + 1) val1 (valb + 8) out
    enc_loop cs val1 r.2 r.1

/-- The padding loop `while (out.size()%4) out.push_back('=')` of
client.cpp 51; three iterations always suffice. -/
def pad_loop : Nat → Str → Str
  | 0, out => out
  | n + 1, out => if out.length % 4 ≠ 0 then pad_loop n (out ++ ['=']) else out

/-- The end of `base64_encode` (client.cpp 50-52): the last, partial sextet
`((val<<8)>>(valb+8))&0x3F` when bits are left over, then the padding. -/
def enc_finish (out : Str) (val valb : Int) : Str :=
  pad_loop 3
    (if valb > -6 then out ++ [b64_char (wrap32 (val * 256) / 2 ^ (valb + 8).toNat)]
     else out)

/-- Function `base64_encode` of client.cpp 39-53. -/
def base64_encode (inp : Str) : Str :=
  let r := enc_loop inp 0 (-6) []
  enc_finish r.1 r.2.1 r.2.2

/-- The table `T` of `base64_decode` (client.cpp 56-57): 256 entries, all -1
but `T[b64_chars[i]] = i`. -/
def decode_table : List Int :=
  (List.range 64).foldl (fun T i => T.set (b64_chars.getD i 'A').toNat (i : Int))
    (List.replicate 256 (-1))

/-- The entry `T[c]` for the byte `c`. -/
def decode_entry (c : Char) : Int := decode_table.getD c.toNat (-1)

/-- The loop of `base64_decode` (client.cpp 60-68). -/
def dec_loop : List Char → Int → Int → Str → Str
  | [], _, _, out => out
  | c :: cs, val, valb, out =>
    if decode_entry c = -1 then out
    else
      let val1 := wrap32 (wrap32 (val * 64) + decode_entry c)
      let valb1 := valb + 6
      if valb1 ≥ 0 then
        dec_loop cs val1 (valb1 - 8)
          (out ++ [Char.ofNat ((val1 / 2 ^ valb1.toNat) % 256).toNat])
      else dec_loop cs val1 valb1 out

/-- Function `base64_decode` of client.cpp 55-70. -/
def base64_decode (inp : Str) : Str := dec_loop inp 0 (-8) []

/-- The character of `b64_chars` at index `n`. -/
def sextet (n : Nat) : Char := b64_chars.getD n 'A'

/-- The base64 text of a byte sequence written block by block: three bytes
give four characters, a last block of one or two bytes gives two or three
characters and padding.  It is compared with `base64_encode` in
`base64_encode_eq_blocks`. -/
def encode_blocks : List Char → Str
  | [] => []
  | [a] => [sextet (a.toNat / 4), sextet (a.toNat % 4 * 16), '=', '=']
  | [a, b] =>
    [sextet (a.toNat / 4), sextet (a.toNat % 4 * 16 + b.toNat / 16),
     sextet (b.toNat % 16 * 4), '=']
  | a :: b :: c :: rest =>
    [sextet (a.toNat / 4), sextet (a.toNat % 4 * 16 + b.toNat / 16),
     sextet (b.toNat % 16 * 4 + c.toNat / 64), sextet (c.toNat % 64)] ++ encode_blocks rest

/-! ## client.cpp: the receive loop -/

/-- What `tcp_receive_loop` makes of one record (client.cpp 91-177): a text
message, a file, or one of the other kinds (BCAST, ERR, SHUTDOWN, raw), which
are not detailed here. -/
inductive Received where
  | text (fromCampus fromDept content : Str)
  | file (fromCampus fromDept filename b64 : Str)
  | other
  deriving DecidableEq, Repr

/-- The parsing of one received record `s` in `tcp_receive_loop`
(client.cpp 91-123): the fields are split by the same loop as
`split_tokens`; a FROM record needs four fields, a FILEFROM record five, and
the payload of a FILEFROM record is everything after its fourth separator. -/
def client_parse (s : Str) : Received :=
  match split_tokens s with
  | tag :: t1 :: t2 :: t3 :: rest =>
    if tag = "FROM".toList then .text t1 t2 t3
    else if tag = "FILEFROM".toList then
      match rest with
      | t4 :: _ => .file t1 t2 t3 (file_tail s t4)
      | [] => .other
    else .other
  | _ => .other

/-! ## Scenarios -/

/-- Two connections are accepted and both authenticate as Lahore / Admissions
(the second with another spelling of the same address). -/
def c1_events : List Event :=
  [ .accept 5 [], .accept 6 [],
    .client 0 (some "AUTH|Lahore|Admissions|NU-LHR-123".toList) [],
    .client 1 (some "AUTH|lahore|ADMISSIONS|NU-LHR-123".toList) [] ]

/-- Lahore / Admissions (fd 5) and Karachi / Registrar (fd 6) authenticate. -/
def two_bound : List Event :=
  [ .accept 5 [], .accept 6 [],
    .client 0 (some "AUTH|Lahore|Admissions|NU-LHR-123".toList) [],
    .client 1 (some "AUTH|Karachi|Registrar|NU-KHI-123".toList) [] ]

/-- After `two_bound`, the first connection is closed by its peer. -/
def c2_events : List Event := two_bound ++ [ .client 0 none [] ]

/-- One connection authenticates as Lahore / Admissions and then again as
Karachi / Registrar. -/
def c2_reauth_events : List Event :=
  [ .accept 5 [],
    .client 0 (some "AUTH|Lahore|Admissions|NU-LHR-123".toList) [],
    .client 0 (some "AUTH|Karachi|Registrar|NU-KHI-123".toList) [] ]

/-- A connection authenticates as Lahore / Admissions and then sends an AUTH
with a wrong secret. -/
def c4_events : List Event :=
  [ .accept 5 [],
    .client 0 (some "AUTH|Lahore|Admissions|NU-LHR-123".toList) [],
    .client 0 (some "AUTH|Lahore|Admissions|wrong".toList) [] ]

/-- A connection authenticates as Lahore with the empty department, and is
closed by its peer. -/
def c7_events : List Event :=
  [ .accept 5 [],
    .client 0 (some "AUTH|Lahore||NU-LHR-123".toList) [],
    .client 0 none [] ]

/-- After `c7_events`, Karachi / Registrar connects and authenticates. -/
def c7_then_karachi : List Event :=
  c7_events ++
  [ .accept 6 [],
    .client 0 (some "AUTH|Karachi|Registrar|NU-KHI-123".toList) [] ]

/-- After `two_bound`, Karachi sends the MSG of the specification's scenario. -/
def c5_hello_events : List Event :=
  two_bound ++ [ .client 1 (some "MSG|Lahore|Admissions|Hello".toList) [] ]

/-- After `two_bound`, Karachi sends a MSG whose body is `a|b`. -/
def c5_events : List Event :=
  two_bound ++ [ .client 1 (some "MSG|Lahore|Admissions|a|b".toList) [] ]

/-- After `c7_then_karachi`, Karachi sends a MSG to Lahore with the empty
department. -/
def c7_msg_events : List Event :=
  c7_then_karachi ++ [ .client 0 (some "MSG|Lahore||hello".toList) [] ]

/-- One heartbeat of Lahore at time 100, then one sweep tick per second from
100 to 113 and no other traffic. -/
def c10_events : List Event :=
  Event.datagram "HB|Lahore|Admissions".toList 77 100 ::
    (List.range 14).map (fun i => Event.sweep (100 + (i : Int)))

/-- A connection is accepted and, while it is still pending, a heartbeat
datagram with the empty entity name arrives from address 77. -/
def c11_events : List Event :=
  [ .accept 5 [], .datagram "HB|".toList 77 100 ]

/-- Lahore / Admissions (fd 5), Karachi / Registrar (fd 6) and Multan /
Library (fd 7) authenticate. -/
def three_bound : List Event :=
  two_bound ++
  [ .accept 7 [],
    .client 2 (some "AUTH|Multan|Library|NU-MUL-123".toList) [] ]

/-- An iteration in which `poll` reports only fd 5 readable, its peer having
closed; nothing is accepted, no datagram arrives, and a `recv` on any socket
returns `r <= 0`. -/
def c17_close_first : PollInput :=
  { listen_fd := 3, udp_fd := 4, ready := fun fd => decide (fd = 5), accepted := none,
    dgram := none, recv := fun _ => none, hb_now := 200, sweep_now := 200, stamp := [] }

/-- An iteration in which `poll` reports only the listening socket readable
and `accept` returns fd 6. -/
def c17_accept : PollInput :=
  { listen_fd := 3, udp_fd := 4, ready := fun fd => decide (fd = 3), accepted := some 6,
    dgram := none, recv := fun _ => none, hb_now := 200, sweep_now := 200, stamp := [] }

/-- After `three_bound`, the first connection (Lahore / Admissions) is closed
by its peer and erased. -/
def c13_erased_events : List Event := three_bound ++ [ .client 0 none [] ]

/-! ## Theorems -/

/-! ### Maps -/

theorem map_find_assign_self {α : Type} (m : List (Str × α)) (k : Str) (v : α) :
    map_find (map_assign m k v) k = some v := by
  induction m with
  | nil => simp [map_assign, map_find]
  | cons p m ih =>
    by_cases h : p.1 = k
    · simp [map_assign, map_find, h]
    · simp [map_assign, map_find, h, ih]

theorem map_assign_key_mem {α : Type} (m : List (Str × α)) (k x : Str) (v : α) :
    x ∈ (map_assign m k v).map Prod.fst ↔ x = k ∨ x ∈ m.map Prod.fst := by
  induction m with
  | nil => simp [map_assign]
  | cons p m ih =>
    by_cases h : p.1 = k
    · simp only [map_assign, h, if_true, List.map_cons, List.mem_cons]
      constructor
      · intro h1; exact Or.inr h1
      · rintro (h1 | h1)
        · exact Or.inl h1
        · exact h1
    · simp only [map_assign, h, if_false, List.map_cons, List.mem_cons, ih]
      constructor
      · rintro (h1 | h1 | h1)
        · exact Or.inr (Or.inl h1)
        · exact Or.inl h1
        · exact Or.inr (Or.inr h1)
      · rintro (h1 | h1 | h1)
        · exact Or.inr (Or.inl h1)
        · exact Or.inl h1
        · exact Or.inr (Or.inr h1)

theorem map_assign_nodup {α : Type} (m : List (Str × α)) (k : Str) (v : α)
    (h : (m.map Prod.fst).Nodup) : ((map_assign m k v).map Prod.fst).Nodup := by
  induction m with
  | nil => simp [map_assign]
  | cons p m ih =>
    rw [List.map_cons, List.nodup_cons] at h
    by_cases hp : p.1 = k
    · simp only [map_assign, hp, if_true, List.map_cons, List.nodup_cons]
      rw [← hp]; exact h
    · simp only [map_assign, hp, if_false, List.map_cons, List.nodup_cons]
      refine ⟨?_, ih h.2⟩
      rw [map_assign_key_mem]
      rintro (h1 | h1)
      · exact hp h1
      · exact h.1 h1

theorem map_erase_nodup {α : Type} (m : List (Str × α)) (k : Str)
    (h : (m.map Prod.fst).Nodup) : ((map_erase m k).map Prod.fst).Nodup :=
  List.Nodup.sublist (List.Sublist.map _ (List.filter_sublist _)) h

theorem map_find_none_of_not_mem {α : Type} (m : List (Str × α)) (k : Str)
    (h : k ∉ m.map Prod.fst) : map_find m k = none := by
  induction m with
  | nil => rfl
  | cons p m ih =>
    simp only [List.map_cons, List.mem_cons, not_or] at h
    have h1 : ¬ p.1 = k := fun e => h.1 e.symm
    simp [map_find, h1, ih h.2]

theorem filter_key_of_not_mem {α : Type} (m : List (Str × α)) (k : Str)
    (h : k ∉ m.map Prod.fst) : m.filter (fun p => decide (p.1 = k)) = [] := by
  induction m with
  | nil => rfl
  | cons p m ih =>
    simp only [List.map_cons, List.mem_cons, not_or] at h
    have h1 : ¬ p.1 = k := fun e => h.1 e.symm
    simp [List.filter_cons, h1, ih h.2]

theorem filter_key_of_find {α : Type} (m : List (Str × α)) (k : Str) (v : α)
    (hn : (m.map Prod.fst).Nodup) (hf : map_find m k = some v) :
    m.filter (fun p => decide (p.1 = k)) = [(k, v)] := by
  induction m with
  | nil => simp [map_find] at hf
  | cons p m ih =>
    rw [List.map_cons, List.nodup_cons] at hn
    by_cases h : p.1 = k
    · simp only [map_find, h, if_true, Option.some.injEq] at hf
      have h2 : k ∉ m.map Prod.fst := h ▸ hn.1
      rw [List.filter_cons, filter_key_of_not_mem m k h2]
      simp only [h, decide_True, if_true]
      rw [← h, ← hf]
    · simp only [map_find, h, if_false] at hf
      simp [List.filter_cons, h, ih hn.2 hf]

theorem filter_key_length_le {α : Type} (m : List (Str × α)) (k : Str)
    (hn : (m.map Prod.fst).Nodup) :
    (m.filter (fun p => decide (p.1 = k))).length ≤ 1 := by
  cases hf : map_find m k with
  | some v => rw [filter_key_of_find m k v hn hf]; simp
  | none =>
    by_cases hk : k ∈ m.map Prod.fst
    · exfalso
      clear hn
      induction m with
      | nil => simp at hk
      | cons p m ih =>
        by_cases h : p.1 = k
        · simp [map_find, h] at hf
        · simp only [map_find, h, if_false] at hf
          simp only [List.map_cons, List.mem_cons] at hk
          rcases hk with hk | hk
          · exact h hk.symm
          · exact ih hf hk
    · rw [filter_key_of_not_mem m k hk]; simp


/-! ### Reachable states -/

theorem step_routing_map {s s1 : Server} {e : Event} (h : step s e = some s1) :
    s1.routing_map = s.routing_map ∨
    (∃ k v, s1.routing_map = map_assign s.routing_map k v) ∨
    (∃ k, s1.routing_map = map_erase s.routing_map k) := by
  cases e with
  | accept fd stamp => simp [step, accept_client] at h; subst h; simp
  | datagram d src now =>
    simp only [step, Option.some.injEq] at h; subst h
    left; unfold on_datagram; split
    · split <;> rfl
    · rfl
  | sweep now => simp [step, sweep] at h; subst h; simp
  | client i data stamp =>
    simp only [step, on_client] at h
    split at h
    · exact absurd h (by simp)
    · rename_i ci hci
      cases data with
      | none =>
        simp only [Option.some.injEq] at h; subst h
        simp only [on_disconnect]
        split
        · right; right; exact ⟨_, rfl⟩
        · left; rfl
      | some msg =>
        simp only [on_record] at h
        split at h
        · split at h
          · simp only [Option.some.injEq] at h; subst h
            simp only [on_auth]
            split
            · right; left; exact ⟨_, _, rfl⟩
            · left; rfl
          · split at h
            · simp only [on_msg] at h
              split at h
              · split at h
                · simp only [Option.some.injEq] at h; subst h; left; rfl
                · exact absurd h (by simp)
              · simp only [Option.some.injEq] at h; subst h; left; rfl
            · split at h
              · split at h
                · simp only [on_file] at h
                  split at h
                  · split at h
                    · simp only [Option.some.injEq] at h; subst h; left; rfl
                    · exact absurd h (by simp)
                  · simp only [Option.some.injEq] at h; subst h; left; rfl
                · simp only [Option.some.injEq] at h; subst h; left; rfl
              · simp only [Option.some.injEq] at h; subst h; left; rfl
        · simp only [Option.some.injEq] at h; subst h; left; rfl

theorem reachable_run {s s1 : Server} (es : List Event) (hs : Reachable s)
    (h : run s es = some s1) : Reachable s1 := by
  induction es generalizing s with
  | nil => simp [run] at h; subst h; exact hs
  | cons e es ih =>
    simp only [run] at h
    cases hstep : step s e with
    | none => simp [hstep] at h
    | some s2 =>
      simp only [hstep, Option.bind] at h
      exact ih (Reachable.step e hs hstep) h

theorem routing_keys_nodup {s : Server} (h : Reachable s) :
    (s.routing_map.map Prod.fst).Nodup := by
  induction h with
  | init => simp [initial]
  | step e _ hstep ih =>
    rcases step_routing_map hstep with h1 | ⟨k, v, h1⟩ | ⟨k, h1⟩
    · rw [h1]; exact ih
    · rw [h1]; exact map_assign_nodup _ _ _ ih
    · rw [h1]; exact map_erase_nodup _ _ ih


/-! ### C1: one routing entry per address -/

/-- C1, counterexample: after two accepted connections both send a valid AUTH
for Lahore / Admissions, the connection list holds two entries whose
campusLower and deptLower are those of that address. -/
theorem c1_two_connections_same_address :
    ∃ s, run initial c1_events = some s ∧ Reachable s ∧
      (s.clients.filter (fun c => decide (c.campusLower = to_lower "Lahore".toList ∧
        c.deptLower = to_lower "Admissions".toList))).length = 2 := by
  refine ⟨(run initial c1_events).getD initial, ?_, ?_, ?_⟩
  · decide
  · exact reachable_run c1_events Reachable.init (by decide)
  · decide

/-- C1, amended: in every reachable state the routing table holds at most one
entry for the key of an address (campus, dept) compared case-insensitively;
and when a connection sends a valid AUTH for an address, bound already or
not, the single routing entry of that address afterwards holds the index of
the connection that authenticated last. -/
theorem c1_routing_entry_unique (s : Server) (h : Reachable s) (campus dept : Str)
    (ci_idx : Nat) (ci : ClientInfo) (pass stamp : Str)
    (hok : auth_ok (to_lower campus) pass = true) :
    (s.routing_map.filter (fun p =>
        decide (p.1 = routing_key (to_lower campus) (to_lower dept)))).length ≤ 1 ∧
    ((on_auth s ci_idx ci campus dept pass stamp).routing_map.filter (fun p =>
        decide (p.1 = routing_key (to_lower campus) (to_lower dept)))) =
      [(routing_key (to_lower campus) (to_lower dept), ci_idx)] := by
  refine ⟨filter_key_length_le _ _ (routing_keys_nodup h), ?_⟩
  apply filter_key_of_find
  · simp only [on_auth, hok, if_true]
    exact map_assign_nodup _ _ _ (routing_keys_nodup h)
  · simp only [on_auth, hok, if_true]
    exact map_find_assign_self _ _ _

/-- C1, witness: the amended statement at the state reached by `c1_events`
and a third valid AUTH for the same address, on connection 0. -/
theorem c1_routing_entry_unique_witness :
    Reachable ((run initial c1_events).getD initial) ∧
    auth_ok (to_lower "LAHORE".toList) "NU-LHR-123".toList = true ∧
    (((run initial c1_events).getD initial).routing_map.filter (fun p =>
        decide (p.1 = routing_key (to_lower "LAHORE".toList)
          (to_lower "admissions".toList)))).length ≤ 1 ∧
    ((on_auth ((run initial c1_events).getD initial) 0 { sockfd := 5 } "LAHORE".toList
        "admissions".toList "NU-LHR-123".toList []).routing_map.filter (fun p =>
        decide (p.1 = routing_key (to_lower "LAHORE".toList)
          (to_lower "admissions".toList)))) =
      [(routing_key (to_lower "LAHORE".toList) (to_lower "admissions".toList), 0)] :=
  ⟨reachable_run c1_events Reachable.init (by decide), by decide,
   c1_routing_entry_unique _ (reachable_run c1_events Reachable.init (by decide))
     "LAHORE".toList "admissions".toList 0 { sockfd := 5 } "NU-LHR-123".toList []
     (by decide)⟩

/-! ### C2: routing entries and the indices they hold -/

/-- C2, the code at the failing input: after Lahore / Admissions (index 0) and
Karachi / Registrar (index 1) authenticate and connection 0 is closed, the
routing table still maps `karachi|registrar` to index 1, which is no index of
`clients` any more, and a MSG to that address reads `clients[1]` out of
range; and after one connection authenticates as Lahore / Admissions and then
as Karachi / Registrar, the entry `lahore|admissions` still holds its index
although the connection's address is `karachi|registrar`. -/
theorem c2_stale_routing_index :
    (∃ s, run initial c2_events = some s ∧ Reachable s ∧
      s.clients.map (fun c => c.sockfd) = [6] ∧
      s.routing_map = [("karachi|registrar".toList, 1)] ∧
      s.clients.get? 1 = none ∧
      step s (.client 0 (some "MSG|Karachi|Registrar|x".toList) []) = none) ∧
    (∃ s, run initial c2_reauth_events = some s ∧ Reachable s ∧
      s.routing_map = [("lahore|admissions".toList, 0), ("karachi|registrar".toList, 0)] ∧
      s.clients.map (fun c => routing_key c.campusLower c.deptLower) =
        ["karachi|registrar".toList]) := by
  refine ⟨⟨(run initial c2_events).getD initial, ?_, ?_, ?_, ?_, ?_, ?_⟩,
    ⟨(run initial c2_reauth_events).getD initial, ?_, ?_, ?_, ?_⟩⟩
  · decide
  · exact reachable_run c2_events Reachable.init (by decide)
  · decide
  · decide
  · decide
  · decide
  · decide
  · exact reachable_run c2_reauth_events Reachable.init (by decide)
  · decide
  · decide

/-! ### C4: a failed AUTH -/

/-- C4, the code at the failing input: a connection bound to Lahore /
Admissions that sends an AUTH with a wrong secret gets one `AUTH_FAIL` and is
removed from `clients`, but the routing table keeps the entry of its former
address. -/
theorem c4_failed_auth_keeps_routing_entry :
    ∃ s, run initial c4_events = some s ∧ Reachable s ∧
      s.sent = [(5, "AUTH_OK".toList), (5, "AUTH_FAIL".toList)] ∧
      s.clients = [] ∧
      s.routing_map = [("lahore|admissions".toList, 0)] := by
  refine ⟨(run initial c4_events).getD initial, ?_, ?_, ?_, ?_, ?_⟩
  · decide
  · exact reachable_run c4_events Reachable.init (by decide)
  · decide
  · decide
  · decide

/-! ### C5: relaying a MSG -/

/-- C5, the code at the scenario of the specification and at the failing
input: after Lahore / Admissions (fd 5) and Karachi / Registrar (fd 6)
authenticate, Karachi's `MSG|Lahore|Admissions|Hello` sends
`FROM|Karachi|Registrar|Hello` to fd 5, and Karachi's
`MSG|Lahore|Admissions|a|b` sends `FROM|Karachi|Registrar|a` to fd 5: the body
is cut at its first separator. -/
theorem c5_body_cut_at_separator :
    (∃ s, run initial c5_hello_events = some s ∧
      s.sent = [(5, "AUTH_OK".toList), (6, "AUTH_OK".toList),
        (5, "FROM|Karachi|Registrar|Hello".toList)]) ∧
    (∃ s, run initial c5_events = some s ∧
      Reachable s ∧
      s.sent = [(5, "AUTH_OK".toList), (6, "AUTH_OK".toList),
        (5, "FROM|Karachi|Registrar|a".toList)]) := by
  refine ⟨⟨(run initial c5_hello_events).getD initial, ?_, ?_⟩,
    ⟨(run initial c5_events).getD initial, ?_, ?_, ?_⟩⟩
  · decide
  · decide
  · decide
  · exact reachable_run c5_events Reachable.init (by decide)
  · decide

/-! ### C7: disconnecting a bound connection -/

/-- C7, the code at the failing input: a connection that authenticated as
Lahore with the empty department and is then closed leaves the routing entry
`lahore|` behind; a later MSG addressed to Lahore with the empty department,
sent by the Karachi / Registrar connection now at index 0 (fd 6), is relayed
to `clients[0]`, the sender itself, and no ERR is sent. -/
theorem c7_empty_dept_entry_survives :
    (∃ s, run initial c7_events = some s ∧ Reachable s ∧
      s.clients = [] ∧
      map_find s.routing_map (routing_key (to_lower "Lahore".toList) (to_lower [])) =
        some 0) ∧
    (∃ s, run initial c7_msg_events = some s ∧ Reachable s ∧
      s.sent = [(5, "AUTH_OK".toList), (6, "AUTH_OK".toList),
        (6, "FROM|Karachi|Registrar|hello".toList)]) := by
  refine ⟨⟨(run initial c7_events).getD initial, ?_, ?_, ?_, ?_⟩,
    ⟨(run initial c7_msg_events).getD initial, ?_, ?_, ?_⟩⟩
  · decide
  · exact reachable_run c7_events Reachable.init (by decide)
  · decide
  · decide
  · decide
  · exact reachable_run c7_msg_events Reachable.init (by decide)
  · decide

/-! ### Records -/

theorem split_go_out (sep : Char) (s : List Char) (tmp : Str) (out : List Str) :
    split_go sep s tmp out = out ++ split_go sep s tmp [] := by
  induction s generalizing tmp out with
  | nil => simp [split_go]
  | cons c cs ih =>
    by_cases h : c = sep
    · simp only [split_go, h, if_true]
      rw [ih [] (out ++ [tmp]), ih [] ([] ++ [tmp])]
      simp
    · simp only [split_go, h, if_false]
      exact ih _ _

theorem split_go_field (sep : Char) (f rest : List Char) (tmp : Str) (out : List Str)
    (hf : sep ∉ f) :
    split_go sep (f ++ sep :: rest) tmp out = split_go sep rest [] (out ++ [tmp ++ f]) := by
  induction f generalizing tmp with
  | nil => simp [split_go]
  | cons c cs ih =>
    simp only [List.mem_cons, not_or] at hf
    have h : ¬ c = sep := fun e => hf.1 e.symm
    have e : (c :: cs) ++ sep :: rest = c :: (cs ++ sep :: rest) := rfl
    rw [e]
    simp only [split_go, h, if_false]
    rw [ih _ hf.2]
    simp

theorem split_go_ne_nil (sep : Char) (s : List Char) (tmp : Str) :
    ∃ t ts, split_go sep s tmp [] = t :: ts := by
  induction s generalizing tmp with
  | nil => exact ⟨tmp, [], rfl⟩
  | cons c cs ih =>
    by_cases h : c = sep
    · simp only [split_go, h, if_true]
      rw [split_go_out]
      exact ⟨tmp, _, rfl⟩
    · simp only [split_go, h, if_false]
      exact ih _

theorem split_tokens_field (f rest : List Char) (hf : '|' ∉ f) :
    split_tokens (f ++ '|' :: rest) = f :: split_tokens rest := by
  unfold split_tokens
  rw [split_go_field _ _ _ _ _ hf, split_go_out]
  simp

/-! ### C6: a MSG to an address that is not routed -/

/-- C6: for every server state, every connection `clients[ci_idx]` and every
record `MSG|T|D|body` (`T` and `D` the second and third fields, `body`
arbitrary) whose key lower(T)|lower(D) is not in the routing table, the
handler returns the state it was given with exactly one more send, to the
sender's socket, of `ERR|Target offline or unknown: T-D`: the connection
list, the routing table, the routing log and the liveness table are
unchanged. -/
theorem c6_routing_miss (s : Server) (ci_idx : Nat) (ci : ClientInfo)
    (T D body stamp : Str) (hci : s.clients.get? ci_idx = some ci)
    (hT : '|' ∉ T) (hD : '|' ∉ D)
    (hmiss : map_find s.routing_map (routing_key (to_lower T) (to_lower D)) = none) :
    step s (.client ci_idx
        (some ("MSG|".toList ++ T ++ "|".toList ++ D ++ "|".toList ++ body)) stamp) =
      some { s with sent := s.sent ++
        [(ci.sockfd, "ERR|Target offline or unknown: ".toList ++ T ++ "-".toList ++ D)] } := by
  have hrec : split_tokens ("MSG|".toList ++ T ++ "|".toList ++ D ++ "|".toList ++ body) =
      "MSG".toList :: T :: D :: split_tokens body := by
    have e1 : "MSG|".toList ++ T ++ "|".toList ++ D ++ "|".toList ++ body =
        "MSG".toList ++ '|' :: (T ++ '|' :: (D ++ '|' :: body)) := by
      simp [List.append_assoc]
    rw [e1, split_tokens_field _ _ (by decide), split_tokens_field _ _ hT,
      split_tokens_field _ _ hD]
  obtain ⟨t3, rest, hbody⟩ := split_go_ne_nil '|' body []
  have hbody1 : split_tokens body = t3 :: rest := hbody
  simp only [step, on_client, hci, on_record, hrec, hbody1]
  have h1 : ¬ ("MSG".toList = "AUTH".toList) := by decide
  simp only [h1, if_false, if_true, on_msg, hmiss, err_record]


/-- C6, witness: with Lahore / Admissions and Karachi / Registrar bound,
Karachi's `MSG|Lahore|Billing|Hi` is answered to Karachi (fd 6) with
`ERR|Target offline or unknown: Lahore-Billing`. -/
theorem c6_routing_miss_witness :
    ((run initial two_bound).getD initial).clients.get? 1 =
      some { sockfd := 6, campusLower := "karachi".toList, campusDisplay := "Karachi".toList,
             deptLower := "registrar".toList, deptDisplay := "Registrar".toList } ∧
    '|' ∉ "Lahore".toList ∧ '|' ∉ "Billing".toList ∧
    map_find ((run initial two_bound).getD initial).routing_map
      (routing_key (to_lower "Lahore".toList) (to_lower "Billing".toList)) = none ∧
    "ERR|Target offline or unknown: ".toList ++ "Lahore".toList ++ "-".toList ++
      "Billing".toList = "ERR|Target offline or unknown: Lahore-Billing".toList ∧
    step ((run initial two_bound).getD initial) (.client 1
        (some ("MSG|".toList ++ "Lahore".toList ++ "|".toList ++ "Billing".toList ++
          "|".toList ++ "Hi".toList)) []) =
      some { (run initial two_bound).getD initial with
        sent := ((run initial two_bound).getD initial).sent ++
          [(6, "ERR|Target offline or unknown: ".toList ++ "Lahore".toList ++ "-".toList ++
            "Billing".toList)] } :=
  ⟨by decide, by decide, by decide, by decide, by decide,
   c6_routing_miss ((run initial two_bound).getD initial) 1
     { sockfd := 6, campusLower := "karachi".toList, campusDisplay := "Karachi".toList,
       deptLower := "registrar".toList, deptDisplay := "Registrar".toList }
     "Lahore".toList "Billing".toList "Hi".toList [] (by decide) (by decide) (by decide)
     (by decide)⟩

/-! ### C3: AUTH with a correct secret -/

theorem map_find_mem {α : Type} (m : List (Str × α)) (k : Str) (v : α)
    (h : map_find m k = some v) : (k, v) ∈ m := by
  induction m with
  | nil => simp [map_find] at h
  | cons p m ih =>
    by_cases hp : p.1 = k
    · simp only [map_find, hp, if_true, Option.some.injEq] at h
      have : p = (k, v) := Prod.ext hp h
      rw [this]; exact List.mem_cons_self _ _
    · simp only [map_find, hp, if_false] at h
      exact List.mem_cons_of_mem _ (ih h)

theorem display_name_sound :
    ∀ p ∈ campus_display_name, ∃ kp ∈ credentials,
      to_lower kp.1 = p.1 ∧ kp.1 = p.2 ∧ map_find credentials p.2 = some kp.2 := by
  decide

theorem display_name_complete :
    ∀ kp ∈ credentials,
      map_find campus_display_name (to_lower kp.1) = some kp.1 ∧
      map_find credentials kp.1 = some kp.2 := by
  decide

/-- What the condition of the AUTH branch tests: the entity is, up to case, a
key of the credential table and the secret is that key's password. -/
theorem auth_ok_iff (x pass : Str) :
    auth_ok x pass = true ↔ ∃ kp ∈ credentials, to_lower kp.1 = x ∧ kp.2 = pass := by
  unfold auth_ok
  constructor
  · intro h
    cases hd : map_find campus_display_name x with
    | none => simp [hd] at h
    | some disp =>
      simp only [hd, decide_eq_true_eq] at h
      obtain ⟨kp, hkp, h1, h2, h3⟩ := display_name_sound _ (map_find_mem _ _ _ hd)
      simp only at h1 h2 h3
      rw [h3] at h
      exact ⟨kp, hkp, h1, by simpa using h⟩
  · rintro ⟨kp, hkp, h1, h2⟩
    obtain ⟨h3, h4⟩ := display_name_complete kp hkp
    rw [← h1, h3]
    simp [h4, h2]

/-- C3: for every state, every connection `clients[ci_idx]` and every record
read from it whose fields are `AUTH`, entity, subEntity, secret and possibly
more, the handler returns a state; `AUTH_OK` is what it sends (once, to that
connection) if and only if some key of the credential table has the
lowercase of the entity and the secret as its password; and in that case
the connection's entry gets that key as display name, the sub-entity as
typed, their lowercase forms, and the routing table maps
lower(entity)|lower(subEntity) to the connection's index. -/
theorem c3_auth_success (s : Server) (ci_idx : Nat) (ci : ClientInfo)
    (msg entity sub secret stamp : Str) (rest : List Str)
    (hci : s.clients.get? ci_idx = some ci)
    (hrec : split_tokens msg = "AUTH".toList :: entity :: sub :: secret :: rest) :
    ∃ s1, step s (.client ci_idx (some msg) stamp) = some s1 ∧
      ((∃ kp ∈ credentials, to_lower kp.1 = to_lower entity ∧ kp.2 = secret) ↔
        s1.sent = s.sent ++ [(ci.sockfd, "AUTH_OK".toList)]) ∧
      ∀ kp ∈ credentials, to_lower kp.1 = to_lower entity → kp.2 = secret →
        s1.sent = s.sent ++ [(ci.sockfd, "AUTH_OK".toList)] ∧
        s1.clients = s.clients.set ci_idx
          { ci with
            campusLower := to_lower entity
            campusDisplay := kp.1
            deptLower := to_lower sub
            deptDisplay := sub } ∧
        map_find s1.routing_map (routing_key (to_lower entity) (to_lower sub)) =
          some ci_idx := by
  refine ⟨on_auth s ci_idx ci entity sub secret stamp, ?_, ?_, ?_⟩
  · simp only [step, on_client, hci, on_record, hrec, if_true]
  · rw [← auth_ok_iff]
    simp only [on_auth]
    by_cases h : auth_ok (to_lower entity) secret = true
    · rw [if_pos h]
      exact ⟨fun _ => rfl, fun _ => h⟩
    · rw [if_neg h]
      refine ⟨fun h1 => absurd h1 h, fun h1 => ?_⟩
      exfalso
      have h2 := List.append_cancel_left h1
      simp only [List.cons.injEq, Prod.mk.injEq, and_true, true_and] at h2
      revert h2
      decide
  · intro kp hkp h1 h2
    have hok : auth_ok (to_lower entity) secret = true :=
      (auth_ok_iff _ _).2 ⟨kp, hkp, h1, h2⟩
    have hd := (display_name_complete kp hkp).1
    rw [h1] at hd
    simp only [on_auth, hok, if_true, hd, Option.getD_some, true_and]
    exact map_find_assign_self _ _ _


/-- C3, witness: a fresh connection (fd 5) sends
`AUTH|lahore|Admissions|NU-LHR-123`. -/
theorem c3_auth_success_witness :
    (accept_client initial 5 []).clients.get? 0 = some { sockfd := 5 } ∧
    split_tokens "AUTH|lahore|Admissions|NU-LHR-123".toList =
      "AUTH".toList :: "lahore".toList :: "Admissions".toList :: "NU-LHR-123".toList :: [] ∧
    ∃ s1, step (accept_client initial 5 [])
        (.client 0 (some "AUTH|lahore|Admissions|NU-LHR-123".toList) []) = some s1 ∧
      ((∃ kp ∈ credentials, to_lower kp.1 = to_lower "lahore".toList ∧
          kp.2 = "NU-LHR-123".toList) ↔
        s1.sent = (accept_client initial 5 []).sent ++ [(5, "AUTH_OK".toList)]) ∧
      ∀ kp ∈ credentials, to_lower kp.1 = to_lower "lahore".toList →
        kp.2 = "NU-LHR-123".toList →
        s1.sent = (accept_client initial 5 []).sent ++ [(5, "AUTH_OK".toList)] ∧
        s1.clients = (accept_client initial 5 []).clients.set 0
          { ({ sockfd := 5 } : ClientInfo) with
            campusLower := to_lower "lahore".toList
            campusDisplay := kp.1
            deptLower := to_lower "Admissions".toList
            deptDisplay := "Admissions".toList } ∧
        map_find s1.routing_map
          (routing_key (to_lower "lahore".toList) (to_lower "Admissions".toList)) = some 0 :=
  ⟨by decide, by decide,
   c3_auth_success (accept_client initial 5 []) 0 { sockfd := 5 }
     "AUTH|lahore|Admissions|NU-LHR-123".toList "lahore".toList "Admissions".toList
     "NU-LHR-123".toList [] [] (by decide) (by decide)⟩

/-! ### C9, C10: the liveness sweep -/


theorem map_find_map_val {α : Type} (f : α → α) (m : List (Str × α)) (k : Str) :
    map_find (m.map (fun kv => (kv.1, f kv.2))) k = (map_find m k).map f := by
  induction m with
  | nil => rfl
  | cons p m ih =>
    by_cases h : p.1 = k
    · simp [map_find, h]
    · simp [map_find, h, ih]

theorem sweeps_find (s : Server) (ts : List Int) (k : Str) :
    map_find (sweeps s ts).campusStatus k =
      (map_find s.campusStatus k).map (fun r => ts.foldl (fun r t => sweep_entry t r) r) := by
  induction ts generalizing s with
  | nil => simp [sweeps]
  | cons t ts ih =>
    have h := ih (sweep s t)
    simp only [sweeps, List.foldl_cons] at h ⊢
    rw [h]
    simp only [sweep, map_find_map_val, Option.map_map]
    rfl

theorem sweep_entry_offline (now : Int) (r : CampusStatus) (h : r.online = false) :
    sweep_entry now r = r := by
  simp [sweep_entry, h]

theorem sweep_entry_early (now : Int) (r : CampusStatus)
    (h : now - r.lastHeartbeat ≤ HEARTBEAT_INTERVAL) : sweep_entry now r = r := by
  have h1 : ¬ (now - r.lastHeartbeat > HEARTBEAT_INTERVAL) := not_lt.mpr h
  simp [sweep_entry, h1]

theorem sweep_entries_offline (ts : List Int) (r : CampusStatus) (h : r.online = false) :
    ts.foldl (fun r t => sweep_entry t r) r = r := by
  induction ts with
  | nil => rfl
  | cons t ts ih => simp only [List.foldl_cons, sweep_entry_offline t r h, ih]

theorem sweep_entries_online (ts : List Int) (last m : Int) (hm0 : 0 ≤ m)
    (hm : m < MAX_MISSED_HEARTBEATS) :
    ts.foldl (fun r t => sweep_entry t r)
        { lastHeartbeat := last, missedCount := m, online := true } =
      { lastHeartbeat := last
        missedCount := min (m + (late_ticks last ts : Int)) MAX_MISSED_HEARTBEATS
        online := decide (m + (late_ticks last ts : Int) < MAX_MISSED_HEARTBEATS) } := by
  induction ts generalizing m with
  | nil =>
    simp only [List.foldl_nil, late_ticks, List.filter_nil, List.length_nil, Nat.cast_zero,
      add_zero]
    simp [hm, le_of_lt hm]
  | cons t ts ih =>
    simp only [List.foldl_cons]
    by_cases hl : t - last > HEARTBEAT_INTERVAL
    · have hlt : late_ticks last (t :: ts) = late_ticks last ts + 1 := by
        simp [late_ticks, List.filter_cons, hl]
      by_cases h3 : m + 1 ≥ MAX_MISSED_HEARTBEATS
      · have e : sweep_entry t { lastHeartbeat := last, missedCount := m, online := true } =
            { lastHeartbeat := last, missedCount := m + 1, online := false } := by
          simp [sweep_entry, hl, h3]
        rw [e, sweep_entries_offline _ _ rfl, hlt]
        have h4 : ¬ (m + ((late_ticks last ts + 1 : Nat) : Int) < MAX_MISSED_HEARTBEATS) := by
          push_cast; unfold MAX_MISSED_HEARTBEATS at *; omega
        have h5 : min (m + ((late_ticks last ts + 1 : Nat) : Int)) MAX_MISSED_HEARTBEATS
            = m + 1 := by
          push_cast; unfold MAX_MISSED_HEARTBEATS at *; omega
        rw [h5, decide_eq_false h4]
      · have e : sweep_entry t { lastHeartbeat := last, missedCount := m, online := true } =
            { lastHeartbeat := last, missedCount := m + 1, online := true } := by
          simp [sweep_entry, hl, h3]
        rw [e, ih (m + 1) (by omega) (by omega), hlt]
        push_cast
        have : m + 1 + (late_ticks last ts : Int) = m + ((late_ticks last ts : Int) + 1) := by ring
        rw [this]
    · have hlt : late_ticks last (t :: ts) = late_ticks last ts := by
        simp [late_ticks, List.filter_cons, hl]
      have e : sweep_entry t { lastHeartbeat := last, missedCount := m, online := true } =
          { lastHeartbeat := last, missedCount := m, online := true } :=
        sweep_entry_early _ _ (not_lt.mp hl)
      rw [e, ih m hm0 hm, hlt]


/-- C9: for a record that is online with missedCount = 0, after the sweep
ticks `ts` with no heartbeat in between, lastHeartbeat is unchanged,
missedCount is the number of ticks that saw more than HEARTBEAT_INTERVAL
seconds elapsed, capped at MAX_MISSED_HEARTBEATS, and the record is online
exactly when that number is below MAX_MISSED_HEARTBEATS (so it goes offline
at the MAX_MISSED_HEARTBEATS-th such tick, not before); and a sweep tick that
sees at most HEARTBEAT_INTERVAL seconds elapsed, or finds the record
offline, leaves the record as it is. -/
theorem c9_sweep_counts_late_ticks (s : Server) (k : Str) (r : CampusStatus)
    (ts : List Int) (s1 : Server) (r1 : CampusStatus) (now : Int)
    (hr : map_find s.campusStatus k = some r) (hon : r.online = true)
    (hm : r.missedCount = 0)
    (hr1 : map_find s1.campusStatus k = some r1)
    (hq : now - r1.lastHeartbeat ≤ HEARTBEAT_INTERVAL ∨ r1.online = false) :
    map_find (sweeps s ts).campusStatus k =
      some { lastHeartbeat := r.lastHeartbeat
             missedCount := min (late_ticks r.lastHeartbeat ts : Int) MAX_MISSED_HEARTBEATS
             online := decide ((late_ticks r.lastHeartbeat ts : Int) < MAX_MISSED_HEARTBEATS) } ∧
    map_find (sweep s1 now).campusStatus k = some r1 := by
  constructor
  · rw [sweeps_find, hr, Option.map_some']
    have e : r = { lastHeartbeat := r.lastHeartbeat, missedCount := 0, online := true } := by
      cases r; simp_all
    rw [e, sweep_entries_online ts _ 0 (le_refl 0) (by decide)]
    simp
  · have h := sweeps_find s1 [now] k
    simp only [sweeps, List.foldl_cons, List.foldl_nil, hr1, Option.map_some'] at h
    rw [h]
    rcases hq with hq | hq
    · rw [sweep_entry_early _ _ hq]
    · rw [sweep_entry_offline _ _ hq]

/-- C9, witness: Lahore, heard at time 100, is swept at 105, 111, 112, 113 and
114 (four ticks later than 110); and a tick at time 50 on the offline record
of Karachi. -/
theorem c9_sweep_counts_late_ticks_witness :
    map_find (on_datagram initial "HB|Lahore|Admissions".toList 77 100).campusStatus
      "lahore".toList = some { lastHeartbeat := 100, missedCount := 0, online := true } ∧
    map_find initial.campusStatus "lahore".toList = some {} ∧
    map_find (sweeps (on_datagram initial "HB|Lahore|Admissions".toList 77 100)
        [105, 111, 112, 113, 114]).campusStatus "lahore".toList =
      some { lastHeartbeat := 100
             missedCount := min (late_ticks 100 [105, 111, 112, 113, 114] : Int)
               MAX_MISSED_HEARTBEATS
             online := decide ((late_ticks 100 [105, 111, 112, 113, 114] : Int) <
               MAX_MISSED_HEARTBEATS) } ∧
    map_find (sweep initial 50).campusStatus "lahore".toList = some {} :=
  ⟨by decide, by decide,
   c9_sweep_counts_late_ticks (on_datagram initial "HB|Lahore|Admissions".toList 77 100)
     "lahore".toList { lastHeartbeat := 100, missedCount := 0, online := true }
     [105, 111, 112, 113, 114] initial {} 50 (by decide) rfl rfl (by decide)
     (Or.inr rfl)⟩

/-- C10, the code at the failing input: Lahore is heard at time 100 and the
sweep ticks once per second; after the tick at 112 its record is online with
missedCount 2, and after the tick at 113 it is offline, 13 seconds after the
heartbeat, although the next heartbeat is not due before
MAX_MISSED_HEARTBEATS * HEARTBEAT_INTERVAL = 30 seconds have passed. -/
theorem c10_offline_after_three_ticks :
    (∃ s, run initial c10_events.dropLast = some s ∧ Reachable s ∧
      map_find s.campusStatus "lahore".toList =
        some { lastHeartbeat := 100, missedCount := 2, online := true }) ∧
    (∃ s, run initial c10_events = some s ∧ Reachable s ∧
      map_find s.campusStatus "lahore".toList =
        some { lastHeartbeat := 100, missedCount := 3, online := false }) ∧
    (113 : Int) - 100 < MAX_MISSED_HEARTBEATS * HEARTBEAT_INTERVAL := by
  refine ⟨⟨(run initial c10_events.dropLast).getD initial, ?_, ?_, ?_⟩,
    ⟨(run initial c10_events).getD initial, ?_, ?_, ?_⟩, ?_⟩
  · decide
  · exact reachable_run c10_events.dropLast Reachable.init (by decide)
  · decide
  · decide
  · exact reachable_run c10_events Reachable.init (by decide)
  · decide
  · decide

/-! ### C8: the base64 codec -/

theorem b64_char_eq (x : Int) (n : Nat) (h : x % 64 = (n : Int)) : b64_char x = sextet n := by
  unfold b64_char sextet
  rw [h, Int.toNat_ofNat]

theorem enc_acc_mod (v c : Int) (hc0 : 0 ≤ c) (hc : c < 256) :
    wrap32 (wrap32 (v * 256) + c) % 65536 = (v % 256) * 256 + c := by
  unfold wrap32; omega

theorem enc_final_mod (v : Int) : wrap32 (v * 256) % 65536 = (v % 256) * 256 := by
  unfold wrap32; omega

theorem enc_loop_m6 (c : Char) (cs : List Char) (v : Int) (out : Str) :
    enc_loop (c :: cs) v (-6) out =
      enc_loop cs (wrap32 (wrap32 (v * 256) + (c.toNat : Int))) (-4)
        (out ++ [b64_char (wrap32 (wrap32 (v * 256) + (c.toNat : Int)) / 4)]) := by
  simp [enc_loop, enc_while]

theorem enc_loop_m4 (c : Char) (cs : List Char) (v : Int) (out : Str) :
    enc_loop (c :: cs) v (-4) out =
      enc_loop cs (wrap32 (wrap32 (v * 256) + (c.toNat : Int))) (-2)
        (out ++ [b64_char (wrap32 (wrap32 (v * 256) + (c.toNat : Int)) / 16)]) := by
  simp [enc_loop, enc_while]

theorem enc_loop_m2 (c : Char) (cs : List Char) (v : Int) (out : Str) :
    enc_loop (c :: cs) v (-2) out =
      enc_loop cs (wrap32 (wrap32 (v * 256) + (c.toNat : Int))) (-6)
        (out ++ [b64_char (wrap32 (wrap32 (v * 256) + (c.toNat : Int)) / 64),
          b64_char (wrap32 (wrap32 (v * 256) + (c.toNat : Int)))]) := by
  simp [enc_loop, enc_while]

/-- The first sextet of a block. -/
theorem sextet_first (v : Int) (a : Char) (ha : a.toNat < 256) :
    b64_char (wrap32 (wrap32 (v * 256) + (a.toNat : Int)) / 4) = sextet (a.toNat / 4) := by
  apply b64_char_eq
  have h := enc_acc_mod v a.toNat (by omega) (by omega)
  push_cast
  omega

theorem sextet_second (v : Int) (a b : Char) (ha : a.toNat < 256) (hb : b.toNat < 256) :
    b64_char (wrap32 (wrap32 (wrap32 (wrap32 (v * 256) + (a.toNat : Int)) * 256) +
        (b.toNat : Int)) / 16) = sextet (a.toNat % 4 * 16 + b.toNat / 16) := by
  apply b64_char_eq
  have h1 := enc_acc_mod v a.toNat (by omega) (by omega)
  have h2 := enc_acc_mod (wrap32 (wrap32 (v * 256) + (a.toNat : Int))) b.toNat
    (by omega) (by omega)
  push_cast
  omega

theorem sextet_third (v : Int) (b c : Char) (hb : b.toNat < 256) (hc : c.toNat < 256) :
    b64_char (wrap32 (wrap32 (wrap32 (wrap32 (v * 256) + (b.toNat : Int)) * 256) +
        (c.toNat : Int)) / 64) = sextet (b.toNat % 16 * 4 + c.toNat / 64) := by
  apply b64_char_eq
  have h1 := enc_acc_mod v b.toNat (by omega) (by omega)
  have h2 := enc_acc_mod (wrap32 (wrap32 (v * 256) + (b.toNat : Int))) c.toNat
    (by omega) (by omega)
  push_cast
  omega

theorem sextet_fourth (v : Int) (c : Char) (hc : c.toNat < 256) :
    b64_char (wrap32 (wrap32 (v * 256) + (c.toNat : Int))) = sextet (c.toNat % 64) := by
  apply b64_char_eq
  have h := enc_acc_mod v c.toNat (by omega) (by omega)
  push_cast
  omega

theorem sextet_last_of_one (v : Int) (a : Char) (ha : a.toNat < 256) :
    b64_char (wrap32 (wrap32 (wrap32 (v * 256) + (a.toNat : Int)) * 256) / 16) =
      sextet (a.toNat % 4 * 16) := by
  apply b64_char_eq
  have h1 := enc_acc_mod v a.toNat (by omega) (by omega)
  have h2 := enc_final_mod (wrap32 (wrap32 (v * 256) + (a.toNat : Int)))
  push_cast
  omega

theorem sextet_last_of_two (v : Int) (b : Char) (hb : b.toNat < 256) :
    b64_char (wrap32 (wrap32 (wrap32 (v * 256) + (b.toNat : Int)) * 256) / 64) =
      sextet (b.toNat % 16 * 4) := by
  apply b64_char_eq
  have h1 := enc_acc_mod v b.toNat (by omega) (by omega)
  have h2 := enc_final_mod (wrap32 (wrap32 (v * 256) + (b.toNat : Int)))
  push_cast
  omega

theorem pad_loop_0 (out : Str) (h : out.length % 4 = 0) : pad_loop 3 out = out := by
  simp [pad_loop, h]

theorem pad_loop_2 (out : Str) (h : out.length % 4 = 2) :
    pad_loop 3 out = out ++ ['=', '='] := by
  have h1 : (out.length + 1) % 4 = 3 := by omega
  have h2 : (out.length + 1 + 1) % 4 = 0 := by omega
  simp [pad_loop, h, h1, h2]

theorem pad_loop_3 (out : Str) (h : out.length % 4 = 3) :
    pad_loop 3 out = out ++ ['='] := by
  have h1 : (out.length + 1) % 4 = 0 := by omega
  simp [pad_loop, h, h1]


/-- The iteration bound of `enc_while` is never what stops it: with a bound
above `valb` the loop ends because `valb` is negative. -/
theorem enc_while_exit (n : Nat) (val valb : Int) (out : Str) (h : valb < (n : Int)) :
    (enc_while n val valb out).2 < 0 := by
  induction n generalizing valb out with
  | zero => simpa [enc_while] using h
  | succ n ih =>
    by_cases hv : valb ≥ 0
    · simp only [enc_while, hv, if_true]
      exact ih _ _ (by push_cast at h; omega)
    · simp only [enc_while, hv, if_false]
      omega

/-- The iteration bound of `pad_loop` is never what stops it: the padded
length is a multiple of 4. -/
theorem pad_loop_exit (out : Str) : (pad_loop 3 out).length % 4 = 0 := by
  have h : out.length % 4 = 0 ∨ out.length % 4 = 1 ∨ out.length % 4 = 2 ∨
      out.length % 4 = 3 := by omega
  rcases h with h | h | h | h
  · rw [pad_loop_0 out h]; exact h
  · have h1 : (out.length + 1) % 4 = 2 := by omega
    have h2 : (out.length + 1 + 1) % 4 = 3 := by omega
    have h3 : (out.length + 1 + 1 + 1) % 4 = 0 := by omega
    simp [pad_loop, h, h1, h2, h3]
  · rw [pad_loop_2 out h]; simp [List.length_append]; omega
  · rw [pad_loop_3 out h]; simp [List.length_append]; omega

theorem list_induction3 {α : Type} {P : List α → Prop} (h0 : P [])
    (h1 : ∀ a, P [a]) (h2 : ∀ a b, P [a, b])
    (h3 : ∀ a b c rest, P rest → P (a :: b :: c :: rest)) : ∀ l, P l
  | [] => h0
  | [a] => h1 a
  | [a, b] => h2 a b
  | a :: b :: c :: rest => h3 a b c rest (list_induction3 h0 h1 h2 h3 rest)

/-- From a block boundary, `base64_encode` appends the block form of the
remaining bytes. -/
theorem enc_from_boundary (bs : List Char) :
    (∀ c ∈ bs, c.toNat < 256) → ∀ (v : Int) (out : Str), out.length % 4 = 0 →
      enc_finish (enc_loop bs v (-6) out).1 (enc_loop bs v (-6) out).2.1
        (enc_loop bs v (-6) out).2.2 = out ++ encode_blocks bs := by
  induction bs using list_induction3 with
  | h0 =>
    intro _ v out hlen
    simp [enc_loop, enc_finish, encode_blocks, pad_loop_0 out hlen]
  | h1 a =>
    intro hb v out hlen
    have ha : a.toNat < 256 := hb a (by simp)
    rw [enc_loop_m6]
    simp only [enc_loop, enc_finish]
    rw [if_pos (by decide)]
    have e : ((-4 : Int) + 8).toNat = 4 := by decide
    rw [e]
    norm_num only
    rw [sextet_first v a ha, sextet_last_of_one v a ha]
    rw [pad_loop_2 _ (by simp [List.length_append]; omega)]
    simp [encode_blocks]
  | h2 a b =>
    intro hb v out hlen
    have ha : a.toNat < 256 := hb a (by simp)
    have hb1 : b.toNat < 256 := hb b (by simp)
    rw [enc_loop_m6, enc_loop_m4]
    simp only [enc_loop, enc_finish]
    rw [if_pos (by decide)]
    have e : ((-2 : Int) + 8).toNat = 6 := by decide
    rw [e]
    norm_num only
    rw [sextet_first v a ha, sextet_second v a b ha hb1, sextet_last_of_two _ b hb1]
    rw [pad_loop_3 _ (by simp [List.length_append]; omega)]
    simp [encode_blocks]
  | h3 a b c rest ih =>
    intro hb v out hlen
    have ha : a.toNat < 256 := hb a (by simp)
    have hb1 : b.toNat < 256 := hb b (by simp)
    have hc : c.toNat < 256 := hb c (by simp)
    rw [enc_loop_m6, enc_loop_m4, enc_loop_m2]
    rw [ih (fun x hx => hb x (by simp [hx])) _ _ (by simp [List.length_append]; omega)]
    rw [sextet_first v a ha, sextet_second v a b ha hb1, sextet_third _ b c hb1 hc,
      sextet_fourth _ c hc]
    simp [encode_blocks]


theorem decode_entry_sextet : ∀ n, n < 64 → decode_entry (sextet n) = (n : Int) := by
  decide

theorem decode_entry_pad : decode_entry '=' = -1 := by decide

theorem dec_acc_mod (v x : Int) (hx0 : 0 ≤ x) (hx : x < 64) :
    wrap32 (wrap32 (v * 64) + x) % 4096 = (v % 64) * 64 + x := by
  unfold wrap32; omega

theorem dec_loop_m8 (n : Nat) (hn : n < 64) (cs : List Char) (v : Int) (out : Str) :
    dec_loop (sextet n :: cs) v (-8) out =
      dec_loop cs (wrap32 (wrap32 (v * 64) + (n : Int))) (-2) out := by
  have h : decode_entry (sextet n) ≠ -1 := by rw [decode_entry_sextet n hn]; omega
  simp [dec_loop, h, decode_entry_sextet n hn]

theorem dec_loop_m2 (n : Nat) (hn : n < 64) (cs : List Char) (v : Int) (out : Str) :
    dec_loop (sextet n :: cs) v (-2) out =
      dec_loop cs (wrap32 (wrap32 (v * 64) + (n : Int))) (-4)
        (out ++ [Char.ofNat ((wrap32 (wrap32 (v * 64) + (n : Int)) / 16) % 256).toNat]) := by
  have h : decode_entry (sextet n) ≠ -1 := by rw [decode_entry_sextet n hn]; omega
  simp [dec_loop, h, decode_entry_sextet n hn]

theorem dec_loop_m4 (n : Nat) (hn : n < 64) (cs : List Char) (v : Int) (out : Str) :
    dec_loop (sextet n :: cs) v (-4) out =
      dec_loop cs (wrap32 (wrap32 (v * 64) + (n : Int))) (-6)
        (out ++ [Char.ofNat ((wrap32 (wrap32 (v * 64) + (n : Int)) / 4) % 256).toNat]) := by
  have h : decode_entry (sextet n) ≠ -1 := by rw [decode_entry_sextet n hn]; omega
  simp [dec_loop, h, decode_entry_sextet n hn]

theorem dec_loop_m6 (n : Nat) (hn : n < 64) (cs : List Char) (v : Int) (out : Str) :
    dec_loop (sextet n :: cs) v (-6) out =
      dec_loop cs (wrap32 (wrap32 (v * 64) + (n : Int))) (-8)
        (out ++ [Char.ofNat ((wrap32 (wrap32 (v * 64) + (n : Int))) % 256).toNat]) := by
  have h : decode_entry (sextet n) ≠ -1 := by rw [decode_entry_sextet n hn]; omega
  simp [dec_loop, h, decode_entry_sextet n hn]

theorem dec_loop_pad (cs : List Char) (v vb : Int) (out : Str) :
    dec_loop ('=' :: cs) v vb out = out := by
  simp [dec_loop, decode_entry_pad]



theorem char_of_byte (a : Char) (x : Int) (h : x = (a.toNat : Int)) :
    Char.ofNat x.toNat = a := by
  rw [h, Int.toNat_ofNat, Char.ofNat_toNat]

/-- The first byte of a block, from its first two sextets. -/
theorem byte_first (v : Int) (a : Char) (ha : a.toNat < 256) (k : Nat) (hk : k < 16) :
    Char.ofNat ((wrap32 (wrap32 (wrap32 (wrap32 (v * 64) + ((a.toNat / 4 : Nat) : Int)) * 64) +
      ((a.toNat % 4 * 16 + k : Nat) : Int)) / 16) % 256).toNat = a := by
  apply char_of_byte
  have h1 := dec_acc_mod v ((a.toNat / 4 : Nat) : Int) (by omega) (by omega)
  have h2 := dec_acc_mod (wrap32 (wrap32 (v * 64) + ((a.toNat / 4 : Nat) : Int)))
    ((a.toNat % 4 * 16 + k : Nat) : Int) (by omega) (by omega)
  push_cast at h1 h2 ⊢
  omega

/-- The second byte of a block, from its second and third sextets. -/
theorem byte_second (v : Int) (b : Char) (hb : b.toNat < 256) (x k : Nat) (hx : x < 4)
    (hk : k < 4) :
    Char.ofNat ((wrap32 (wrap32 (wrap32 (wrap32 (v * 64) +
      ((x * 16 + b.toNat / 16 : Nat) : Int)) * 64) +
      ((b.toNat % 16 * 4 + k : Nat) : Int)) / 4) % 256).toNat = b := by
  apply char_of_byte
  have h1 := dec_acc_mod v ((x * 16 + b.toNat / 16 : Nat) : Int) (by omega) (by omega)
  have h2 := dec_acc_mod (wrap32 (wrap32 (v * 64) + ((x * 16 + b.toNat / 16 : Nat) : Int)))
    ((b.toNat % 16 * 4 + k : Nat) : Int) (by omega) (by omega)
  push_cast at h1 h2 ⊢
  omega

/-- The third byte of a block, from its third and fourth sextets. -/
theorem byte_third (v : Int) (c : Char) (hc : c.toNat < 256) (y : Nat) (hy : y < 16) :
    Char.ofNat ((wrap32 (wrap32 (wrap32 (wrap32 (v * 64) +
      ((y * 4 + c.toNat / 64 : Nat) : Int)) * 64) +
      ((c.toNat % 64 : Nat) : Int))) % 256).toNat = c := by
  apply char_of_byte
  have h1 := dec_acc_mod v ((y * 4 + c.toNat / 64 : Nat) : Int) (by omega) (by omega)
  have h2 := dec_acc_mod (wrap32 (wrap32 (v * 64) + ((y * 4 + c.toNat / 64 : Nat) : Int)))
    ((c.toNat % 64 : Nat) : Int) (by omega) (by omega)
  push_cast at h1 h2 ⊢
  omega


/-- The function `base64_encode` computes the block form. -/
theorem base64_encode_eq_blocks (bs : List Char) (hb : ∀ c ∈ bs, c.toNat < 256) :
    base64_encode bs = encode_blocks bs := by
  have h := enc_from_boundary bs hb 0 [] rfl
  simpa [base64_encode] using h

/-- The loop of `base64_decode`, started at a block boundary on the block
form of `bs`, appends `bs`. -/
theorem dec_blocks (bs : List Char) :
    (∀ c ∈ bs, c.toNat < 256) → ∀ (v : Int) (out : Str),
      dec_loop (encode_blocks bs) v (-8) out = out ++ bs := by
  induction bs using list_induction3 with
  | h0 => intro _ v out; simp [encode_blocks, dec_loop]
  | h1 a =>
    intro hb v out
    have ha : a.toNat < 256 := hb a (by simp)
    have h1 := byte_first v a ha 0 (by omega)
    rw [Nat.add_zero] at h1
    simp only [encode_blocks]
    rw [dec_loop_m8 _ (by omega), dec_loop_m2 _ (by omega), dec_loop_pad, h1]
  | h2 a b =>
    intro hb v out
    have ha : a.toNat < 256 := hb a (by simp)
    have hb1 : b.toNat < 256 := hb b (by simp)
    have h1 := byte_first v a ha (b.toNat / 16) (by omega)
    have h2 := byte_second (wrap32 (wrap32 (v * 64) + ((a.toNat / 4 : Nat) : Int))) b hb1
      (a.toNat % 4) 0 (by omega) (by omega)
    rw [Nat.add_zero] at h2
    simp only [encode_blocks]
    rw [dec_loop_m8 _ (by omega), dec_loop_m2 _ (by omega), dec_loop_m4 _ (by omega),
      dec_loop_pad, h1, h2]
    simp
  | h3 a b c rest ih =>
    intro hb v out
    have ha : a.toNat < 256 := hb a (by simp)
    have hb1 : b.toNat < 256 := hb b (by simp)
    have hc : c.toNat < 256 := hb c (by simp)
    have h1 := byte_first v a ha (b.toNat / 16) (by omega)
    have h2 := byte_second (wrap32 (wrap32 (v * 64) + ((a.toNat / 4 : Nat) : Int))) b hb1
      (a.toNat % 4) (c.toNat / 64) (by omega) (by omega)
    have h3 := byte_third (wrap32 (wrap32 (wrap32 (wrap32 (v * 64) +
      ((a.toNat / 4 : Nat) : Int)) * 64) + ((a.toNat % 4 * 16 + b.toNat / 16 : Nat) : Int)))
      c hc (b.toNat % 16) (by omega)
    simp only [encode_blocks, List.cons_append, List.nil_append]
    rw [dec_loop_m8 _ (by omega), dec_loop_m2 _ (by omega), dec_loop_m4 _ (by omega),
      dec_loop_m6 _ (by omega), h1, h2, h3]
    rw [ih (fun x hx => hb x (by simp [hx]))]
    simp

/-- C8: for every byte sequence `b` (every character a byte, any length),
decoding the encoding of `b` gives `b` back, with the `int` accumulators of
both functions wrapping at 32 bits. -/
theorem c8_base64_roundtrip (b : Str) (hb : ∀ c ∈ b, c.toNat < 256) :
    base64_decode (base64_encode b) = b := by
  rw [base64_encode_eq_blocks b hb]
  unfold base64_decode
  rw [dec_blocks b hb]
  rfl

/-- C8, witness: the five bytes 0, 255, 'M', 128, '|'. -/
theorem c8_base64_roundtrip_witness :
    (∀ c ∈ [Char.ofNat 0, Char.ofNat 255, 'M', Char.ofNat 128, '|'], c.toNat < 256) ∧
    base64_decode (base64_encode [Char.ofNat 0, Char.ofNat 255, 'M', Char.ofNat 128, '|']) =
      [Char.ofNat 0, Char.ofNat 255, 'M', Char.ofNat 128, '|'] :=
  ⟨by decide, c8_base64_roundtrip _ (by decide)⟩

/-! ### C11, C12: heartbeat datagrams -/

/-- C11, the code at the failing input: the empty entity name is no key of the
liveness table, yet after the datagram `HB|` from address 77 the pending
connection (fd 5), whose campusLower is empty as well, has
has_udp_addr = true and udpAddr = 77. -/
theorem c11_empty_entity_marks_pending :
    map_find initial.campusStatus (to_lower []) = none ∧
    split_tokens "HB|".toList = ["HB".toList, []] ∧
    ∃ s, run initial c11_events = some s ∧ Reachable s ∧
      (accept_client initial 5 []).clients = [{ sockfd := 5 }] ∧
      s.clients = [{ sockfd := 5, udpAddr := 77, has_udp_addr := true }] := by
  refine ⟨by decide, by decide, (run initial c11_events).getD initial, ?_, ?_, ?_, ?_⟩
  · decide
  · exact reachable_run c11_events Reachable.init (by decide)
  · decide
  · decide

theorem map_find_assign_other {α : Type} (m : List (Str × α)) (k k1 : Str) (v : α)
    (hk : k1 ≠ k) : map_find (map_assign m k v) k1 = map_find m k1 := by
  induction m with
  | nil =>
    have : ¬ k = k1 := fun h => hk h.symm
    simp [map_assign, map_find, this]
  | cons p m ih =>
    by_cases h : p.1 = k
    · have h2 : ¬ k = k1 := fun h3 => hk h3.symm
      simp [map_assign, map_find, h, h2]
    · by_cases h1 : p.1 = k1
      · simp [map_assign, map_find, h, h1, hk]
      · simp [map_assign, map_find, h, h1, ih]

theorem map_assign_keys_of_count {α : Type} (m : List (Str × α)) (k : Str) (v : α)
    (h : map_count m k = true) : (map_assign m k v).map Prod.fst = m.map Prod.fst := by
  induction m with
  | nil => simp [map_count, map_find] at h
  | cons p m ih =>
    by_cases hp : p.1 = k
    · simp [map_assign, hp]
    · have h1 : map_count m k = true := by simpa [map_count, map_find, hp] using h
      simp [map_assign, hp, ih h1]

theorem on_client_campusStatus {s s1 : Server} {i : Nat} {data : Option Str} {stamp : Str}
    (h : on_client s i data stamp = some s1) : s1.campusStatus = s.campusStatus := by
  simp only [on_client] at h
  split at h
  · exact absurd h (by simp)
  · cases data with
    | none => simp only [Option.some.injEq] at h; subst h; rfl
    | some msg =>
      simp only [on_record] at h
      split at h
      · split at h
        · simp only [Option.some.injEq] at h; subst h
          simp only [on_auth]
          split <;> rfl
        · split at h
          · simp only [on_msg] at h
            split at h
            · split at h
              · simp only [Option.some.injEq] at h; subst h; rfl
              · exact absurd h (by simp)
            · simp only [Option.some.injEq] at h; subst h; rfl
          · split at h
            · split at h
              · simp only [on_file] at h
                split at h
                · split at h
                  · simp only [Option.some.injEq] at h; subst h; rfl
                  · exact absurd h (by simp)
                · simp only [Option.some.injEq] at h; subst h; rfl
              · simp only [Option.some.injEq] at h; subst h; rfl
            · simp only [Option.some.injEq] at h; subst h; rfl
      · simp only [Option.some.injEq] at h; subst h; rfl

theorem on_datagram_status_keys (s : Server) (dgram : Str) (src : Nat) (now : Int) :
    (on_datagram s dgram src now).campusStatus.map Prod.fst = s.campusStatus.map Prod.fst := by
  unfold on_datagram
  split
  · split
    · simp only
      split
      · rename_i h
        exact map_assign_keys_of_count _ _ _ h
      · rfl
    · rfl
  · rfl


theorem step_status_keys {s s1 : Server} {e : Event} (h : step s e = some s1) :
    s1.campusStatus.map Prod.fst = s.campusStatus.map Prod.fst := by
  cases e with
  | accept fd stamp => simp [step, accept_client] at h; subst h; rfl
  | datagram d src now =>
    simp only [step, Option.some.injEq] at h; subst h
    exact on_datagram_status_keys s d src now
  | sweep now =>
    simp only [step, Option.some.injEq] at h; subst h
    simp [sweep, List.map_map, Function.comp]
  | client i data stamp =>
    simp only [step] at h
    rw [on_client_campusStatus h]

theorem reachable_status_keys {s : Server} (h : Reachable s) :
    s.campusStatus.map Prod.fst = credentials.map (fun p => to_lower p.1) := by
  induction h with
  | init => decide
  | step e _ hstep ih => rw [step_status_keys hstep, ih]

/-- What a heartbeat datagram does to the liveness table. -/
theorem on_datagram_status (s : Server) (dgram e : Str) (rest : List Str) (src : Nat)
    (now : Int) (hrec : split_tokens dgram = "HB".toList :: e :: rest) :
    (on_datagram s dgram src now).campusStatus =
      if map_count s.campusStatus (to_lower e) then
        map_assign s.campusStatus (to_lower e)
          { lastHeartbeat := now, missedCount := 0, online := true }
      else s.campusStatus := by
  simp only [on_datagram, hrec, if_true]

/-- C12: for every server state and every datagram whose fields are `HB`, e and
possibly more, with lower(e) a key of the liveness table: afterwards the
record of lower(e) is online with missedCount 0 and lastHeartbeat the current
time, whatever it was before; the record of every other key is unchanged; the
keys of the table are unchanged; and in a reachable state they are the
lowercased keys of the credential table. -/
theorem c12_heartbeat_known (s : Server) (dgram e : Str) (rest : List Str) (src : Nat)
    (now : Int) (hrec : split_tokens dgram = "HB".toList :: e :: rest)
    (hknown : map_count s.campusStatus (to_lower e) = true) :
    map_find (on_datagram s dgram src now).campusStatus (to_lower e) =
      some { lastHeartbeat := now, missedCount := 0, online := true } ∧
    (∀ k, k ≠ to_lower e →
      map_find (on_datagram s dgram src now).campusStatus k = map_find s.campusStatus k) ∧
    (on_datagram s dgram src now).campusStatus.map Prod.fst =
      s.campusStatus.map Prod.fst ∧
    (Reachable s → (on_datagram s dgram src now).campusStatus.map Prod.fst =
      credentials.map (fun p => to_lower p.1)) := by
  rw [on_datagram_status s dgram e rest src now hrec, if_pos hknown]
  refine ⟨map_find_assign_self _ _ _, fun k hk => map_find_assign_other _ _ _ _ hk,
    map_assign_keys_of_count _ _ _ hknown, fun hs => ?_⟩
  rw [map_assign_keys_of_count _ _ _ hknown]
  exact reachable_status_keys hs

/-- C12, witness: Lahore, marked offline with missedCount 3 by `c10_events`,
is heard again at time 120 through the datagram `HB|LAHORE|Admissions`. -/
theorem c12_heartbeat_known_witness :
    split_tokens "HB|LAHORE|Admissions".toList =
      "HB".toList :: "LAHORE".toList :: ["Admissions".toList] ∧
    map_find ((run initial c10_events).getD initial).campusStatus (to_lower "LAHORE".toList) =
      some { lastHeartbeat := 100, missedCount := 3, online := false } ∧
    map_find (on_datagram ((run initial c10_events).getD initial)
        "HB|LAHORE|Admissions".toList 78 120).campusStatus (to_lower "LAHORE".toList) =
      some { lastHeartbeat := 120, missedCount := 0, online := true } ∧
    (∀ k, k ≠ to_lower "LAHORE".toList →
      map_find (on_datagram ((run initial c10_events).getD initial)
        "HB|LAHORE|Admissions".toList 78 120).campusStatus k =
      map_find ((run initial c10_events).getD initial).campusStatus k) ∧
    (on_datagram ((run initial c10_events).getD initial)
        "HB|LAHORE|Admissions".toList 78 120).campusStatus.map Prod.fst =
      credentials.map (fun p => to_lower p.1) :=
  ⟨by decide, by decide,
   (c12_heartbeat_known ((run initial c10_events).getD initial) "HB|LAHORE|Admissions".toList
     "LAHORE".toList ["Admissions".toList] 78 120 (by decide) (by decide)).1,
   (c12_heartbeat_known ((run initial c10_events).getD initial) "HB|LAHORE|Admissions".toList
     "LAHORE".toList ["Admissions".toList] 78 120 (by decide) (by decide)).2.1,
   (c12_heartbeat_known ((run initial c10_events).getD initial) "HB|LAHORE|Admissions".toList
     "LAHORE".toList ["Admissions".toList] 78 120 (by decide) (by decide)).2.2.2
     (reachable_run c10_events Reachable.init (by decide))⟩

/-! ### C15: splitting and joining -/

theorem join_fields_cons (f : Str) (fs : List Str) (h : fs ≠ []) :
    join_fields (f :: fs) = f ++ '|' :: join_fields fs := by
  cases fs with
  | nil => exact absurd rfl h
  | cons g rest => rfl

theorem split_go_cons_sep (sep : Char) (cs : List Char) (tmp : Str) :
    split_go sep (sep :: cs) tmp [] = tmp :: split_go sep cs [] [] := by
  simp only [split_go, if_true]
  rw [split_go_out]
  rfl

theorem split_go_cons_other (sep c : Char) (cs : List Char) (tmp : Str) (h : c ≠ sep) :
    split_go sep (c :: cs) tmp [] = split_go sep cs (tmp ++ [c]) [] := by
  simp only [split_go, h, if_false]

theorem split_go_no_sep (sep : Char) (s : List Char) :
    ∀ tmp : Str, sep ∉ tmp → ∀ f ∈ split_go sep s tmp [], sep ∉ f := by
  induction s with
  | nil =>
    intro tmp htmp f hf
    simp only [split_go, List.nil_append, List.mem_singleton] at hf
    rw [hf]; exact htmp
  | cons c cs ih =>
    intro tmp htmp f hf
    by_cases h : c = sep
    · rw [h, split_go_cons_sep] at hf
      rcases List.mem_cons.mp hf with h1 | h1
      · rw [h1]; exact htmp
      · exact ih [] (by simp) f h1
    · rw [split_go_cons_other sep c cs tmp h] at hf
      refine ih (tmp ++ [c]) ?_ f hf
      simp only [List.mem_append, List.mem_singleton, not_or]
      exact ⟨htmp, fun e => h e.symm⟩

theorem split_go_length (sep : Char) (s : List Char) :
    ∀ tmp : Str, (split_go sep s tmp []).length = 1 + s.count sep := by
  induction s with
  | nil => intro tmp; simp [split_go]
  | cons c cs ih =>
    intro tmp
    by_cases h : c = sep
    · rw [h, split_go_cons_sep, List.length_cons, ih, List.count_cons_self]
      omega
    · rw [split_go_cons_other sep c cs tmp h, ih, List.count_cons_of_ne (fun e => h e.symm)]

theorem split_go_join (s : List Char) :
    ∀ tmp : Str, join_fields (split_go '|' s tmp []) = tmp ++ s := by
  induction s with
  | nil => intro tmp; simp [split_go, join_fields]
  | cons c cs ih =>
    intro tmp
    by_cases h : c = '|'
    · rw [h, split_go_cons_sep]
      obtain ⟨t, ts, ht⟩ := split_go_ne_nil '|' cs []
      rw [join_fields_cons _ _ (by rw [ht]; simp), ih []]
      simp
    · rw [split_go_cons_other '|' c cs tmp h, ih]
      simp

theorem split_go_single (sep : Char) (f : List Char) :
    ∀ tmp : Str, sep ∉ f → split_go sep f tmp [] = [tmp ++ f] := by
  induction f with
  | nil => intro tmp _; simp [split_go]
  | cons c cs ih =>
    intro tmp hf
    simp only [List.mem_cons, not_or] at hf
    rw [split_go_cons_other sep c cs tmp (fun e => hf.1 e.symm), ih _ hf.2]
    simp

theorem split_join_fields (fields : List Str) :
    fields ≠ [] → (∀ f ∈ fields, '|' ∉ f) → split_tokens (join_fields fields) = fields := by
  induction fields with
  | nil => intro h; exact absurd rfl h
  | cons f fs ih =>
    intro _ hf
    cases fs with
    | nil =>
      have h := split_go_single '|' f [] (hf f (by simp))
      simpa [join_fields, split_tokens] using h
    | cons g rest =>
      rw [join_fields_cons _ _ (by simp), split_tokens_field _ _ (hf f (by simp)),
        ih (by simp) (fun x hx => hf x (List.mem_cons_of_mem _ hx))]

/-- C15: for every string s, `split_tokens s` is a non-empty list of fields,
none of which contains the separator, its length is one more than the
number of separators in s, and joining its fields with the separator gives
s; and for every non-empty list of fields none of which contains the
separator, `split_tokens` of their join is that list. -/
theorem c15_split_join_inverse (s : Str) (fields : List Str) (hne : fields ≠ [])
    (hf : ∀ f ∈ fields, '|' ∉ f) :
    split_tokens s ≠ [] ∧
    (∀ f ∈ split_tokens s, '|' ∉ f) ∧
    (split_tokens s).length = 1 + s.count '|' ∧
    join_fields (split_tokens s) = s ∧
    split_tokens (join_fields fields) = fields := by
  refine ⟨?_, split_go_no_sep '|' s [] (by simp), split_go_length '|' s [], ?_,
    split_join_fields fields hne hf⟩
  · obtain ⟨t, ts, ht⟩ := split_go_ne_nil '|' s []
    unfold split_tokens
    rw [ht]; simp
  · have h := split_go_join s []
    simpa [split_tokens] using h

/-- C15, witness: the record `FILE|Lahore||f.txt|QUJD` (its third field is
empty) and the fields `FROM`, `Karachi`, the empty field and `Hello`. -/
theorem c15_split_join_inverse_witness :
    (["FROM".toList, "Karachi".toList, [], "Hello".toList] : List Str) ≠ [] ∧
    (∀ f ∈ (["FROM".toList, "Karachi".toList, [], "Hello".toList] : List Str), '|' ∉ f) ∧
    split_tokens "FILE|Lahore||f.txt|QUJD".toList ≠ [] ∧
    (∀ f ∈ split_tokens "FILE|Lahore||f.txt|QUJD".toList, '|' ∉ f) ∧
    (split_tokens "FILE|Lahore||f.txt|QUJD".toList).length =
      1 + ("FILE|Lahore||f.txt|QUJD".toList).count '|' ∧
    join_fields (split_tokens "FILE|Lahore||f.txt|QUJD".toList) =
      "FILE|Lahore||f.txt|QUJD".toList ∧
    split_tokens (join_fields ["FROM".toList, "Karachi".toList, [], "Hello".toList]) =
      ["FROM".toList, "Karachi".toList, [], "Hello".toList] :=
  ⟨by decide, by decide,
   c15_split_join_inverse "FILE|Lahore||f.txt|QUJD".toList
     ["FROM".toList, "Karachi".toList, [], "Hello".toList] (by decide) (by decide)⟩

/-! ### C16: records that are not dispatched -/

/-- C16: for every server state, every connection `clients[ci_idx]` and every
record read from it whose tag is none of AUTH, MSG, FILE, or that has fewer
than 4 fields, or that is a FILE record with fewer than 5 fields, the handler
returns the state it was given: nothing is sent, and the connection list,
the routing table, the liveness table and the routing log are unchanged. -/
theorem c16_unrecognised_record (s : Server) (ci_idx : Nat) (ci : ClientInfo)
    (msg stamp : Str) (hci : s.clients.get? ci_idx = some ci)
    (h : (∀ tag, (split_tokens msg).head? = some tag →
            tag ≠ "AUTH".toList ∧ tag ≠ "MSG".toList ∧ tag ≠ "FILE".toList) ∨
         (split_tokens msg).length < 4 ∨
         ((split_tokens msg).head? = some "FILE".toList ∧ (split_tokens msg).length < 5)) :
    step s (.client ci_idx (some msg) stamp) = some s := by
  simp only [step, on_client, hci, on_record]
  split
  · rename_i tag t1 t2 t3 rest htoks
    rw [htoks] at h
    rcases h with h | h | h
    · obtain ⟨h1, h2, h3⟩ := h tag rfl
      simp only [h1, h2, h3, if_false]
    · simp only [List.length_cons] at h
      omega
    · obtain ⟨h1, h2⟩ := h
      simp only [List.head?_cons, Option.some.injEq] at h1
      have e1 : ¬ ("FILE".toList = "AUTH".toList) := by decide
      have e2 : ¬ ("FILE".toList = "MSG".toList) := by decide
      simp only [h1, e1, e2, if_false, if_true]
      cases rest with
      | nil => rfl
      | cons t4 r => simp only [List.length_cons] at h2; omega
  · rfl

/-- C16, witness: a fresh connection (fd 5) sends `AUTH|Lahore|Admissions`,
an AUTH record with three fields. -/
theorem c16_unrecognised_record_witness :
    (accept_client initial 5 []).clients.get? 0 = some { sockfd := 5 } ∧
    (split_tokens "AUTH|Lahore|Admissions".toList).length < 4 ∧
    step (accept_client initial 5 []) (.client 0 (some "AUTH|Lahore|Admissions".toList) []) =
      some (accept_client initial 5 []) :=
  ⟨by decide, by decide,
   c16_unrecognised_record (accept_client initial 5 []) 0 { sockfd := 5 }
     "AUTH|Lahore|Admissions".toList [] (by decide) (Or.inr (Or.inl (by decide)))⟩

/-! ### C14: the alphabet of the encoder -/

theorem sextet_mem : ∀ n, n < 64 → sextet n ∈ b64_chars := by decide

theorem b64_char_mem (x : Int) : b64_char x ∈ b64_chars := by
  have h : b64_char x = sextet (x % 64).toNat := rfl
  rw [h]
  exact sextet_mem _ (by omega)

theorem enc_while_alphabet (n : Nat) (val : Int) :
    ∀ (valb : Int) (out : Str), (∀ c ∈ out, c ∈ b64_chars ∨ c = '=') →
      ∀ c ∈ (enc_while n val valb out).1, c ∈ b64_chars ∨ c = '=' := by
  induction n with
  | zero => intro valb out h; simpa [enc_while] using h
  | succ n ih =>
    intro valb out h
    by_cases hv : valb ≥ 0
    · simp only [enc_while, hv, if_true]
      apply ih
      intro c hc
      rcases List.mem_append.mp hc with h1 | h1
      · exact h c h1
      · rw [List.mem_singleton.mp h1]; exact Or.inl (b64_char_mem _)
    · simpa only [enc_while, hv, if_false] using h

theorem enc_loop_alphabet (bs : List Char) :
    ∀ (val valb : Int) (out : Str), (∀ c ∈ out, c ∈ b64_chars ∨ c = '=') →
      ∀ c ∈ (enc_loop bs val valb out).1, c ∈ b64_chars ∨ c = '=' := by
  induction bs with
  | nil => intro val valb out h; simpa [enc_loop] using h
  | cons b bs ih =>
    intro val valb out h
    simp only [enc_loop]
    exact ih _ _ _ (enc_while_alphabet _ _ _ _ h)

theorem pad_loop_alphabet (n : Nat) :
    ∀ out : Str, (∀ c ∈ out, c ∈ b64_chars ∨ c = '=') →
      ∀ c ∈ pad_loop n out, c ∈ b64_chars ∨ c = '=' := by
  induction n with
  | zero => intro out h; simpa [pad_loop] using h
  | succ n ih =>
    intro out h
    by_cases hl : out.length % 4 ≠ 0
    · simp only [pad_loop]
      rw [if_pos hl]
      apply ih
      intro c hc
      rcases List.mem_append.mp hc with h1 | h1
      · exact h c h1
      · exact Or.inr (List.mem_singleton.mp h1)
    · simp only [pad_loop]
      rw [if_neg hl]
      exact h

/-- C14: for every input, every character of `base64_encode` is one of the 64
characters of `b64_chars` or the padding character, so the separator `|`
does not occur in it; and its length is a multiple of 4. -/
theorem c14_base64_alphabet (b : Str) :
    (∀ c ∈ base64_encode b, c ∈ b64_chars ∨ c = '=') ∧
    '|' ∉ base64_encode b ∧
    (base64_encode b).length % 4 = 0 := by
  have h1 : ∀ c ∈ base64_encode b, c ∈ b64_chars ∨ c = '=' := by
    simp only [base64_encode, enc_finish]
    apply pad_loop_alphabet
    have h0 := enc_loop_alphabet b 0 (-6) [] (by simp)
    split
    · intro c hc
      rcases List.mem_append.mp hc with h2 | h2
      · exact h0 c h2
      · rw [List.mem_singleton.mp h2]; exact Or.inl (b64_char_mem _)
    · exact h0
  refine ⟨h1, ?_, ?_⟩
  · intro hbar
    rcases h1 _ hbar with h2 | h2
    · revert h2; decide
    · revert h2; decide
  · simp only [base64_encode, enc_finish]
    exact pad_loop_exit _

/-! ### C13: relaying a FILE -/

theorem after_fourth_sep_field (f rest : List Char) (hf : '|' ∉ f) :
    ∀ i seen : Nat, after_fourth_sep (f ++ '|' :: rest) i seen =
      if seen + 1 = 4 then i + f.length + 1
      else after_fourth_sep rest (i + f.length + 1) (seen + 1) := by
  induction f with
  | nil => intro i seen; simp [after_fourth_sep]
  | cons c cs ih =>
    intro i seen
    simp only [List.mem_cons, not_or] at hf
    have hc : ¬ c = '|' := fun e => hf.1 e.symm
    have e : (c :: cs) ++ '|' :: rest = c :: (cs ++ '|' :: rest) := rfl
    rw [e]
    simp only [after_fourth_sep, hc, if_false]
    rw [ih hf.2]
    simp only [List.length_cons]
    have e1 : i + 1 + cs.length + 1 = i + (cs.length + 1) + 1 := by omega
    rw [e1]

/-- The payload extracted from a record with four leading fields is
everything after its fourth separator. -/
theorem file_tail_record (a b c d tail tok4 : Str) (ha : '|' ∉ a) (hb : '|' ∉ b)
    (hc : '|' ∉ c) (hd : '|' ∉ d) (htok : tail = [] → tok4 = []) :
    file_tail (a ++ '|' :: (b ++ '|' :: (c ++ '|' :: (d ++ '|' :: tail)))) tok4 = tail := by
  have hi : after_fourth_sep (a ++ '|' :: (b ++ '|' :: (c ++ '|' :: (d ++ '|' :: tail)))) 0 0
      = a.length + 1 + b.length + 1 + c.length + 1 + d.length + 1 := by
    rw [after_fourth_sep_field a _ ha, if_neg (by decide), after_fourth_sep_field b _ hb,
      if_neg (by decide), after_fourth_sep_field c _ hc, if_neg (by decide),
      after_fourth_sep_field d _ hd, if_pos (by decide)]
    omega
  have hsplit : a ++ '|' :: (b ++ '|' :: (c ++ '|' :: (d ++ '|' :: tail))) =
      (a ++ '|' :: (b ++ '|' :: (c ++ '|' :: (d ++ ['|'])))) ++ tail := by simp
  have hlen : (a ++ '|' :: (b ++ '|' :: (c ++ '|' :: (d ++ ['|'])))).length =
      a.length + 1 + b.length + 1 + c.length + 1 + d.length + 1 := by
    simp only [List.length_append, List.length_cons, List.length_nil]; omega
  unfold file_tail
  simp only [hi]
  by_cases ht : tail = []
  · rw [if_neg, htok ht, ht]
    rw [hsplit, ht, List.append_nil, hlen]; omega
  · rw [if_pos]
    · rw [hsplit, ← hlen, List.drop_left]
    · rw [hsplit, List.length_append, hlen]
      have : 0 < tail.length := List.length_pos.mpr ht
      omega

theorem split_tokens_head_nil (t : Str) (r : List Str) (h : split_tokens [] = t :: r) :
    t = [] := by
  have : split_tokens [] = [[]] := rfl
  rw [this] at h
  simp only [List.cons.injEq] at h
  exact h.1.symm

/-- What one pass on `clients[i]` does to the connection list: nothing, the
erasure of entry `i`, or the binding of entry `i` by a successful AUTH. -/
theorem on_client_clients {s s1 : Server} {i : Nat} {data : Option Str} {stamp : Str}
    (h : on_client s i data stamp = some s1) :
    s1.clients = s.clients ∨ s1.clients = s.clients.eraseIdx i ∨
    ∃ ci msg e d p rest, s.clients.get? i = some ci ∧ data = some msg ∧
      split_tokens msg = "AUTH".toList :: e :: d :: p :: rest ∧
      s1.clients = s.clients.set i
        { ci with
          campusLower := to_lower e
          campusDisplay := (map_find campus_display_name (to_lower e)).getD []
          deptLower := to_lower d
          deptDisplay := d } := by
  simp only [on_client] at h
  split at h
  · exact absurd h (by simp)
  · rename_i ci hci
    cases data with
    | none =>
      simp only [Option.some.injEq] at h; subst h
      right; left; rfl
    | some msg =>
      simp only [on_record] at h
      split at h
      · rename_i tag t1 t2 t3 rest htoks
        split at h
        · rename_i htag
          simp only [Option.some.injEq] at h; subst h
          simp only [on_auth]
          split
          · right; right
            exact ⟨ci, msg, t1, t2, t3, rest, hci, rfl, by rw [htoks, htag], rfl⟩
          · right; left; rfl
        · split at h
          · simp only [on_msg] at h
            split at h
            · split at h
              · simp only [Option.some.injEq] at h; subst h; left; rfl
              · exact absurd h (by simp)
            · simp only [Option.some.injEq] at h; subst h; left; rfl
          · split at h
            · split at h
              · simp only [on_file] at h
                split at h
                · split at h
                  · simp only [Option.some.injEq] at h; subst h; left; rfl
                  · exact absurd h (by simp)
                · simp only [Option.some.injEq] at h; subst h; left; rfl
              · simp only [Option.some.injEq] at h; subst h; left; rfl
            · simp only [Option.some.injEq] at h; subst h; left; rfl
      · simp only [Option.some.injEq] at h; subst h; left; rfl

theorem display_name_no_sep (x : Str) :
    '|' ∉ (map_find campus_display_name x).getD [] := by
  cases h : map_find campus_display_name x with
  | none => simp
  | some v =>
    have hm := map_find_mem _ _ _ h
    have hall : ∀ p ∈ campus_display_name, '|' ∉ p.2 := by decide
    exact hall _ hm

/-- In every reachable state no display name of a connection contains the
separator: the campus name is a key of the credential table and the
department is a field of an AUTH record. -/
theorem reachable_display_no_sep {s : Server} (h : Reachable s) :
    ∀ c ∈ s.clients, '|' ∉ c.campusDisplay ∧ '|' ∉ c.deptDisplay := by
  induction h with
  | init => intro c hc; simp [initial] at hc
  | step e _ hstep ih =>
    rename_i s0 s1
    cases e with
    | accept fd stamp =>
      simp only [step, Option.some.injEq] at hstep; subst hstep
      intro c hc
      simp only [accept_client, List.mem_append, List.mem_singleton] at hc
      rcases hc with hc | hc
      · exact ih c hc
      · rw [hc]; simp
    | sweep now =>
      simp only [step, Option.some.injEq] at hstep; subst hstep
      exact ih
    | datagram d src now =>
      simp only [step, Option.some.injEq] at hstep; subst hstep
      intro c hc
      unfold on_datagram at hc
      split at hc
      · split at hc
        · simp only [List.mem_map] at hc
          obtain ⟨c0, hc0, rfl⟩ := hc
          split
          · exact ih c0 hc0
          · exact ih c0 hc0
        · exact ih c hc
      · exact ih c hc
    | client i data stamp =>
      simp only [step] at hstep
      intro c hc
      rcases on_client_clients hstep with h1 | h1 | ⟨ci, msg, e, d, p, rest, hci, _, htoks, h1⟩
      · rw [h1] at hc; exact ih c hc
      · rw [h1] at hc; exact ih c (List.mem_of_mem_eraseIdx hc)
      · rw [h1] at hc
        rcases List.mem_or_eq_of_mem_set hc with h2 | h2
        · exact ih c h2
        · rw [h2]
          refine ⟨display_name_no_sep _, ?_⟩
          have hd : d ∈ split_tokens msg := by rw [htoks]; simp
          exact split_go_no_sep '|' msg [] (by simp) d hd

/-- The fields of a record built as `tag|a|b|c|tail`. -/
theorem split_tokens_record (tag a b c tail : Str) (htag : '|' ∉ tag) (ha : '|' ∉ a)
    (hb : '|' ∉ b) (hc : '|' ∉ c) :
    ∃ t4 r, split_tokens tail = t4 :: r ∧ (tail = [] → t4 = []) ∧
      split_tokens (tag ++ '|' :: (a ++ '|' :: (b ++ '|' :: (c ++ '|' :: tail)))) =
        tag :: a :: b :: c :: t4 :: r := by
  obtain ⟨t4, r, ht⟩ := split_go_ne_nil '|' tail []
  have ht1 : split_tokens tail = t4 :: r := ht
  refine ⟨t4, r, ht1, ?_, ?_⟩
  · intro h0
    rw [h0] at ht1
    exact split_tokens_head_nil t4 r ht1
  · rw [split_tokens_field _ _ htag, split_tokens_field _ _ ha, split_tokens_field _ _ hb,
      split_tokens_field _ _ hc, ht1]

/-- The content of a relayed file: in every reachable state, when the routing
table maps the key of `FILE|T|D|f|tail` to an index `tidx` at which `clients`
has an entry, the handler sends that entry's socket exactly one record,
`FILEFROM|<campusDisplay>|<deptDisplay>|f|tail` with the sender's display
names and `tail` as received, and the client's parser reads that record as a
file with the same filename and the same `tail`.  Which connection sits at
`tidx` is not part of this statement. -/
theorem file_forward_content (s : Server) (hs : Reachable s) (ci_idx tidx : Nat)
    (ci target : ClientInfo) (T D f tail stamp : Str)
    (hci : s.clients.get? ci_idx = some ci)
    (hT : '|' ∉ T) (hD : '|' ∉ D) (hf : '|' ∉ f)
    (hroute : map_find s.routing_map (routing_key (to_lower T) (to_lower D)) = some tidx)
    (htarget : s.clients.get? tidx = some target) :
    (∃ s1, step s (.client ci_idx (some ("FILE|".toList ++ T ++ "|".toList ++ D ++
          "|".toList ++ f ++ "|".toList ++ tail)) stamp) = some s1 ∧
      s1.sent = s.sent ++ [(target.sockfd, "FILEFROM|".toList ++ ci.campusDisplay ++
        "|".toList ++ ci.deptDisplay ++ "|".toList ++ f ++ "|".toList ++ tail)]) ∧
    client_parse ("FILEFROM|".toList ++ ci.campusDisplay ++ "|".toList ++ ci.deptDisplay ++
        "|".toList ++ f ++ "|".toList ++ tail) =
      .file ci.campusDisplay ci.deptDisplay f tail := by
  have hmem : ci ∈ s.clients := List.get?_mem hci
  obtain ⟨hcd, hdd⟩ := reachable_display_no_sep hs ci hmem
  constructor
  · have e1 : "FILE|".toList ++ T ++ "|".toList ++ D ++ "|".toList ++ f ++ "|".toList ++ tail =
        "FILE".toList ++ '|' :: (T ++ '|' :: (D ++ '|' :: (f ++ '|' :: tail))) := by
      simp [List.append_assoc]
    obtain ⟨t4, r, _, ht0, htoks⟩ :=
      split_tokens_record "FILE".toList T D f tail (by decide) hT hD hf
    have h1 : ¬ ("FILE".toList = "AUTH".toList) := by decide
    have h2 : ¬ ("FILE".toList = "MSG".toList) := by decide
    rw [e1]
    simp only [step, on_client, hci, on_record, htoks, h1, h2, if_false, if_true, on_file,
      hroute, htarget]
    refine ⟨_, rfl, ?_⟩
    simp only [file_tail_record "FILE".toList T D f tail t4 (by decide) hT hD hf ht0]
  · have e1 : "FILEFROM|".toList ++ ci.campusDisplay ++ "|".toList ++ ci.deptDisplay ++
        "|".toList ++ f ++ "|".toList ++ tail =
        "FILEFROM".toList ++ '|' :: (ci.campusDisplay ++ '|' :: (ci.deptDisplay ++
          '|' :: (f ++ '|' :: tail))) := by
      simp [List.append_assoc]
    obtain ⟨t4, r, _, ht0, htoks⟩ :=
      split_tokens_record "FILEFROM".toList ci.campusDisplay ci.deptDisplay f tail
        (by decide) hcd hdd hf
    have h1 : ¬ ("FILEFROM".toList = "FROM".toList) := by decide
    rw [e1]
    simp only [client_parse, htoks, h1, if_false, if_true]
    rw [file_tail_record "FILEFROM".toList ci.campusDisplay ci.deptDisplay f tail t4
      (by decide) hcd hdd hf ht0]

/-- C13, the code at the failing inputs.  After a connection bound to Lahore
with the empty department has closed (its routing entry `lahore|` -> 0 is left
behind) and Karachi / Registrar (fd 6) has taken index 0, no connection is
bound to Lahore any more, yet Karachi's `FILE|Lahore||f.txt|QUJD|x=` finds the
target in the routing table and is sent as `FILEFROM|Karachi|Registrar|...`
to fd 6, the sender itself.  After Lahore / Admissions, Karachi / Registrar
(fd 6) and Multan / Library (fd 7) are bound and connection 0 is erased, the
entry `karachi|registrar` -> 1 designates Multan: Multan's file for Karachi /
Registrar is sent to fd 7, Multan itself, while Karachi is live on fd 6.
After `c2_events` the entry `karachi|registrar` -> 1 designates no entry of
`clients` at all, and the FILE branch reads `clients[1]` out of range. -/
theorem c13_file_to_stale_index :
    (∃ s, run initial c7_then_karachi = some s ∧ Reachable s ∧
      s.clients.map (fun c => (c.sockfd, routing_key c.campusLower c.deptLower)) =
        [(6, "karachi|registrar".toList)] ∧
      map_find s.routing_map (routing_key (to_lower "Lahore".toList) (to_lower [])) =
        some 0 ∧
      (step s (.client 0 (some "FILE|Lahore||f.txt|QUJD|x=".toList) [])).map
          (fun s1 => s1.sent.drop s.sent.length) =
        some [(6, "FILEFROM|Karachi|Registrar|f.txt|QUJD|x=".toList)]) ∧
    (∃ s, run initial c13_erased_events = some s ∧ Reachable s ∧
      s.clients.map (fun c => (c.sockfd, routing_key c.campusLower c.deptLower)) =
        [(6, "karachi|registrar".toList), (7, "multan|library".toList)] ∧
      map_find s.routing_map
          (routing_key (to_lower "Karachi".toList) (to_lower "Registrar".toList)) =
        some 1 ∧
      (step s (.client 1 (some "FILE|Karachi|Registrar|f.txt|QUJD|x=".toList) [])).map
          (fun s1 => s1.sent.drop s.sent.length) =
        some [(7, "FILEFROM|Multan|Library|f.txt|QUJD|x=".toList)]) ∧
    (∃ s, run initial c2_events = some s ∧ Reachable s ∧
      map_find s.routing_map
          (routing_key (to_lower "Karachi".toList) (to_lower "Registrar".toList)) =
        some 1 ∧
      s.clients.get? 1 = none ∧
      step s (.client 0 (some "FILE|Karachi|Registrar|f.txt|QUJD|x=".toList) []) = none) := by
  refine ⟨⟨(run initial c7_then_karachi).getD initial, ?_, ?_, ?_, ?_, ?_⟩,
    ⟨(run initial c13_erased_events).getD initial, ?_, ?_, ?_, ?_, ?_⟩,
    ⟨(run initial c2_events).getD initial, ?_, ?_, ?_, ?_, ?_⟩⟩
  · decide
  · exact reachable_run c7_then_karachi Reachable.init (by decide)
  · decide
  · decide
  · decide
  · decide
  · exact reachable_run c13_erased_events Reachable.init (by decide)
  · decide
  · decide
  · decide
  · decide
  · exact reachable_run c2_events Reachable.init (by decide)
  · decide
  · decide
  · decide

/-! ### C17: the client-socket pass of one poll-loop iteration -/

theorem on_client_length {s s1 : Server} {i : Nat} {data : Option Str} {stamp : Str}
    (h : on_client s i data stamp = some s1) :
    s1.clients.length = s.clients.length ∨ s1.clients.length + 1 = s.clients.length := by
  have hi : i < s.clients.length := by
    simp only [on_client] at h
    split at h
    · exact absurd h (by simp)
    · rename_i ci hci
      exact (List.get?_eq_some.mp hci).1
  rcases on_client_clients h with h1 | h1 | ⟨ci, msg, e, d, p, rest, _, _, _, h1⟩
  · left; rw [h1]
  · right; rw [h1, List.length_eraseIdx]; simp only [hi, if_true]; omega
  · left; rw [h1, List.length_set]

/-- The iteration bound of `client_pass` is never what stops it: once it is
at least the number of connections still to examine, one more changes
nothing. -/
theorem client_pass_fuel (pfds : List Pollfd) (recv : Nat → Option Str) (stamp : Str)
    (fuel : Nat) :
    ∀ (s : Server) (ci_idx idx : Nat), s.clients.length - ci_idx ≤ fuel →
      client_pass (fuel + 1) pfds recv stamp s ci_idx idx =
        client_pass fuel pfds recv stamp s ci_idx idx := by
  induction fuel with
  | zero =>
    intro s ci_idx idx h
    have hn : s.clients.get? ci_idx = none := List.get?_eq_none.mpr (by omega)
    simp only [client_pass, hn]
  | succ n ih =>
    intro s ci_idx idx h
    rw [client_pass]
    conv => rhs; rw [client_pass]
    cases hci : s.clients.get? ci_idx with
    | none => rfl
    | some ci =>
      have hlt : ci_idx < s.clients.length := (List.get?_eq_some.mp hci).1
      simp only
      cases hp : pfds.get? idx with
      | none => rfl
      | some p =>
        simp only
        by_cases hpoll : p.pollin = false
        · rw [if_pos hpoll, if_pos hpoll]
          exact ih s (ci_idx + 1) (idx + 1) (by omega)
        · rw [if_neg hpoll, if_neg hpoll]
          cases hoc : on_client s ci_idx (recv ci.sockfd) stamp with
          | none => rfl
          | some s1 =>
            simp only
            have hlen := on_client_length hoc
            by_cases hshort : s1.clients.length < s.clients.length
            · rw [if_pos hshort, if_pos hshort]
              exact ih s1 ci_idx idx (by omega)
            · rw [if_neg hshort, if_neg hshort]
              exact ih s1 (ci_idx + 1) (idx + 1) (by omega)

/-- C17, the code at the failing inputs.  With connections fd 5, 6, 7 bound and
`poll` reporting only fd 5 readable (its peer closed): after `clients[0]` is
erased the pass stays at `ci_idx = 0`, `idx = 2`, so it examines fd 6 with
the slot built for fd 5, reads it although `poll` did not report it, takes
the failed read for a disconnect, and does the same to fd 7: the iteration
ends with no connection left.  With the same connections and `poll`
reporting only the listening socket, on which fd 6 is accepted: `pfds` has 5
slots, the pass reaches `ci_idx = 3`, `idx = 5` for the new connection, and
`pfds[5]` does not exist. -/
theorem c17_slot_misaligned :
    (∃ s, run initial three_bound = some s ∧ Reachable s ∧
      s.clients.map (fun c => c.sockfd) = [5, 6, 7] ∧
      build_pfds s c17_close_first =
        [⟨3, false⟩, ⟨4, false⟩, ⟨5, true⟩, ⟨6, false⟩, ⟨7, false⟩] ∧
      ((on_client s 0 (c17_close_first.recv 5) []).bind
        (fun s1 => s1.clients.get? 0)).map (fun c => c.sockfd) = some 6 ∧
      ((build_pfds s c17_close_first).get? 2).map (fun p => p.fd) = some 5 ∧
      (poll_iteration s c17_close_first).map (fun s1 => s1.clients) = some []) ∧
    (∃ s, run initial three_bound = some s ∧ Reachable s ∧
      (build_pfds s c17_accept).length = 5 ∧
      (accept_client s 6 []).clients.length = 4 ∧
      poll_iteration s c17_accept = none) := by
  refine ⟨⟨(run initial three_bound).getD initial, ?_, ?_, ?_, ?_, ?_, ?_, ?_⟩,
    ⟨(run initial three_bound).getD initial, ?_, ?_, ?_, ?_, ?_⟩⟩
  · decide
  · exact reachable_run three_bound Reachable.init (by decide)
  · decide
  · decide
  · decide
  · decide
  · decide
  · decide
  · exact reachable_run three_bound Reachable.init (by decide)
  · decide
  · decide
  · decide

end Campus
